import Mathlib

/-!
Verification of the bytecode virtual machine of this repository.

The VM dispatch loop, its stack, globals table and the `Result` enum are
translated from src/src/vm.rs.  The repository modules value.rs, interner.rs,
tensor.rs, chunk.rs and compiler.rs are not present under src/, so the parts
of their behaviour that the VM depends on (value operator semantics, string
interning, the tensor autograd engine, the opcode list) are modelled from the
specification where vm.rs does not determine them; each such definition is
marked in its doc comment.

Machine floats (Rust f64) are modelled as rationals; every concrete value
exercised here is a small integer, on which f64 arithmetic is exact.
-/

/-- Handle issued by the string interner (Rust type StringObjIdx). -/
abbrev StringObjIdx := Nat

/-- Tagged union of runtime values, from value.rs as described by the spec
data model: Nil, Boolean, Number, interned String, interned Identifier and
Tensor.  A Tensor value is an index into the VM tensor arena, so that the
structural equality derived here is the reference identity the spec gives
for tensors. -/
inductive ValueType where
  | Nil : ValueType
  | Boolean : Bool → ValueType
  | Number : ℚ → ValueType
  | String : StringObjIdx → ValueType
  | Identifier : StringObjIdx → ValueType
  | Tensor : Nat → ValueType
deriving DecidableEq

/-- Opcode tags, exactly the variants matched by the dispatch loop in
VM::run (src/src/vm.rs lines 94-234). -/
inductive OpCode where
  | OpReturn | OpConstant | OpNil | OpTrue | OpFalse
  | OpAdd | OpSubtract | OpMultiply | OpDivide | OpPower | OpNegate
  | OpNot | OpEqualEqual | OpGreater | OpLess
  | OpPrint | OpPop
  | OpDefineGlobal | OpGetGlobal | OpSetGlobal | OpCall
deriving DecidableEq

/-- Element of a chunk code sequence: an opcode or a constant pool
reference (chunk.rs VectorType, as used by vm.rs). -/
inductive VectorType where
  | Code : OpCode → VectorType
  | Constant : Nat → VectorType
deriving DecidableEq

/-- Interpretation result enum from src/src/vm.rs lines 29-39.  The Ok
variant alone carries data: the ordered sequence of printed values. -/
inductive Result where
  | Ok : List ValueType → Result
  | CompileErr : String → Result
  | RuntimeErr : String → Result
deriving DecidableEq

/-- Projection of the structured output sequence out of a Result: only the
Ok variant carries one. -/
def resultOutputs : Result → Option (List ValueType)
  | .Ok outs => some outs
  | .CompileErr _ => none
  | .RuntimeErr _ => none

/-- List indexing with an option answer; Rust slice indexing panics where
this returns none, which the machine model turns into a fault. -/
def listGet? {α : Type} : List α → Nat → Option α
  | [], _ => none
  | x :: _, 0 => some x
  | _ :: xs, n + 1 => listGet? xs n

/-- Search for the index of a string in the interner storage. -/
def findString : List String → String → Option Nat
  | [], _ => none
  | x :: xs, s => if x = s then some 0 else (findString xs s).map (· + 1)

/-- Modelled from the spec: interner.rs is not under src/.  Per the
Interner contract, interning returns the existing handle when the exact
text was interned before, else appends the text and returns a fresh
handle; the store is append-only. -/
def internString (l : List String) (s : String) : Nat × List String :=
  match findString l s with
  | some i => (i, l)
  | none => (l.length, l ++ [s])

/-- Modelled from the spec: interner.rs is not under src/.  Lookup of an
issued handle returns the interned text; a foreign handle is outside the
contract and defaults to the empty string. -/
def lookupString (l : List String) (i : Nat) : String :=
  (listGet? l i).getD ("")


/-! ## Value operator semantics

The operator implementations live in value.rs, which is not under src/.
They are modelled from the spec (section 4.5): arithmetic and ordering are
defined only over Number operands (String concatenation is handled by the
VM itself, not here), applying them to incompatible variants is a
runtime-error condition; logical not uses the truthiness rule; equality is
structural across the union. -/

/-- Exponentiation on the rational model of f64: exact on integer
exponents, which covers every exactly representable case exercised here. -/
def qpow (a b : ℚ) : ℚ :=
  if b.den = 1 then (if 0 ≤ b.num then a ^ b.num.toNat else (a ^ b.num.natAbs)⁻¹) else 0

/-- True exactly on the Number variant. -/
def isNumberV : ValueType → Bool
  | .Number _ => true
  | _ => false

/-- True exactly on the String variant. -/
def isStringV : ValueType → Bool
  | .String _ => true
  | _ => false

/-- Modelled from the spec: value.rs is not under src/.  Addition of two
values; defined on Number pairs, a runtime-error condition otherwise. -/
def valueAdd : ValueType → ValueType → Except String ValueType
  | .Number a, .Number b => .ok (.Number (a + b))
  | _, _ => .error ("Operands must be numbers")

/-- Modelled from the spec: value.rs is not under src/.  Subtraction. -/
def valueSub : ValueType → ValueType → Except String ValueType
  | .Number a, .Number b => .ok (.Number (a - b))
  | _, _ => .error ("Operands must be numbers")

/-- Modelled from the spec: value.rs is not under src/.  Multiplication. -/
def valueMul : ValueType → ValueType → Except String ValueType
  | .Number a, .Number b => .ok (.Number (a * b))
  | _, _ => .error ("Operands must be numbers")

/-- Modelled from the spec: value.rs is not under src/.  Division. -/
def valueDiv : ValueType → ValueType → Except String ValueType
  | .Number a, .Number b => .ok (.Number (a / b))
  | _, _ => .error ("Operands must be numbers")

/-- Modelled from the spec: value.rs is not under src/.  Power, with the
first operand as base and the second as exponent. -/
def valuePow : ValueType → ValueType → Except String ValueType
  | .Number a, .Number b => .ok (.Number (qpow a b))
  | _, _ => .error ("Operands must be numbers")

/-- Modelled from the spec: value.rs is not under src/.  Unary negation. -/
def valueNegate : ValueType → Except String ValueType
  | .Number a => .ok (.Number (-a))
  | _ => .error ("Operand must be a number")

/-- Modelled from the spec: value.rs is not under src/.  Ordering, defined
for Number operands, a runtime-error condition otherwise. -/
def valueGreater : ValueType → ValueType → Except String Bool
  | .Number a, .Number b => .ok (decide (a > b))
  | _, _ => .error ("Operands must be numbers")

/-- Modelled from the spec: value.rs is not under src/.  Ordering. -/
def valueLess : ValueType → ValueType → Except String Bool
  | .Number a, .Number b => .ok (decide (a < b))
  | _, _ => .error ("Operands must be numbers")

/-- Truthiness rule from the spec: Nil and Boolean false are falsey, every
other value is truthy. -/
def isFalsey : ValueType → Bool
  | .Nil => true
  | .Boolean b => !b
  | _ => false

/-- Modelled from the spec: value.rs is not under src/.  Logical not maps
every value to a Boolean by the truthiness rule. -/
def valueNot (v : ValueType) : ValueType := .Boolean (isFalsey v)

/-! ## Tensor autograd engine

tensor.rs is not under src/; the engine is modelled from the spec
(sections 4.7 and 9): an arena of graph nodes addressed by stable indices,
each node holding its data buffer, its gradient accumulation buffer
(observably zero-filled until a backward pass writes it) and its parent
edges, each edge carrying the parent index and the local derivative
buffer.  The backward pass seeds the root gradient with ones and visits
the graph in reverse topological order with a visited set, accumulating
into each parent the elementwise product of the local derivative and the
node's own accumulated gradient. -/

/-- Node of the tensor computation graph. -/
structure TensorNode where
  data : List ℚ
  grad : List ℚ
  parents : List (Nat × List ℚ)
deriving DecidableEq

/-- Zero-filled buffer. -/
def zerosQ (n : Nat) : List ℚ := List.replicate n 0

/-- One-filled buffer, the seed of a backward pass. -/
def onesQ (n : Nat) : List ℚ := List.replicate n 1

/-- Elementwise sum of two buffers. -/
def zipAddQ (xs ys : List ℚ) : List ℚ := List.zipWith (· + ·) xs ys

/-- Elementwise product of two buffers. -/
def zipMulQ (xs ys : List ℚ) : List ℚ := List.zipWith (· * ·) xs ys

/-- Arena read with a default empty node for a foreign index. -/
def getNode (arena : List TensorNode) (i : Nat) : TensorNode :=
  (listGet? arena i).getD ⟨[], [], []⟩

/-- Overwrite the gradient buffer of one node. -/
def setGradAt (arena : List TensorNode) (i : Nat) (g : List ℚ) : List TensorNode :=
  match listGet? arena i with
  | some n => arena.set i { n with grad := g }
  | none => arena

/-- Accumulate a contribution into the gradient buffer of one node. -/
def accumGradAt (arena : List TensorNode) (i : Nat) (g : List ℚ) : List TensorNode :=
  match listGet? arena i with
  | some n => arena.set i { n with grad := zipAddQ n.grad g }
  | none => arena

/-- One visit of the backward traversal: if the node is in the visited
set, push the product of each local derivative with the node's
accumulated gradient into the corresponding parent, and mark the parents
visited. -/
def backwardVisit (acc : List TensorNode × List Nat) (i : Nat) : List TensorNode × List Nat :=
  if i ∈ acc.2 then
    match listGet? acc.1 i with
    | some n =>
      (n.parents.foldl (fun a pd => accumGradAt a pd.1 (zipMulQ pd.2 n.grad)) acc.1,
       acc.2 ++ n.parents.map Prod.fst)
    | none => acc
  else acc

/-- Modelled from the spec: tensor.rs is not under src/.  The backward
pass seeds the root gradient with ones and sweeps the arena indices from
the root downward (children were appended after the parents that produced
them, so descending index order is a reverse topological order),
propagating gradients to visited nodes' parents. -/
def backwardPass (arena : List TensorNode) (root : Nat) : List TensorNode :=
  let seeded := setGradAt arena root (onesQ (getNode arena root).data.length)
  (((List.range (root + 1)).reverse).foldl backwardVisit (seeded, [root])).1

/-- Modelled from the spec: tensor.rs is not under src/.  Elementwise
relu: each element becomes max 0 x, with a graph edge back to the input
carrying the local derivative rule of one where the input is positive and
zero otherwise. -/
def reluNode (arena : List TensorNode) (t : Nat) : TensorNode :=
  let d := (getNode arena t).data
  { data := d.map (fun x => max 0 x),
    grad := zerosQ d.length,
    parents := [(t, d.map (fun x => if 0 < x then (1 : ℚ) else 0))] }

/-- Modelled from the spec: tensor.rs is not under src/.  Gradient
readout: the accumulated gradient buffer of a node. -/
def gradientOf (arena : List TensorNode) (t : Nat) : List ℚ :=
  (getNode arena t).grad

/-- Fresh leaf tensor holding the gradient readout of a node, as built by
the VM for the grad method call. -/
def gradNode (arena : List TensorNode) (t : Nat) : TensorNode :=
  let g := gradientOf arena t
  { data := g, grad := zerosQ g.length, parents := [] }

/-! ## VM state and dispatch loop

Translated from src/src/vm.rs.  The fixed 256-slot stack array with its
top index is modelled as a list whose head is the top of stack; a push at
height 256, a pop on an empty stack, and an out-of-range chunk or
constant-pool read are exactly the places where the Rust code indexes out
of bounds, and the model turns each into a fault (an aborted process, not
a reportable Result). -/

/-- Capacity of the operand stack (STACK_MAX in vm.rs). -/
def STACK_MAX : Nat := 256

/-- Lookup in the globals table (Rust HashMap keyed by interned
identifier handles). -/
def globalsGet : List (StringObjIdx × ValueType) → StringObjIdx → Option ValueType
  | [], _ => none
  | (k, v) :: rest, k2 => if k = k2 then some v else globalsGet rest k2

/-- Insertion into the globals table: replaces the binding of an existing
key, otherwise appends a new binding. -/
def globalsInsert : List (StringObjIdx × ValueType) → StringObjIdx → ValueType →
    List (StringObjIdx × ValueType)
  | [], k, v => [(k, v)]
  | (k1, v1) :: rest, k, v =>
    if k1 = k then (k, v) :: rest else (k1, v1) :: globalsInsert rest k v

/-- State owned by the VM: the chunk (code and constant pool), the
instruction pointer, the operand stack, the interner storage, the globals
table and the tensor arena. -/
structure VMState where
  code : List VectorType
  constants : List ValueType
  ip : Nat
  stack : List ValueType
  interner : List String
  globals : List (StringObjIdx × ValueType)
  tensors : List TensorNode
deriving DecidableEq

/-- Answer of one iteration of the dispatch loop: continue in a new state
(having possibly printed one value), return from the run, abort with a
RuntimeError message, or hit a fault (a Rust out-of-bounds abort). -/
inductive StepResult where
  | next : VMState → Option ValueType → StepResult
  | ret : StepResult
  | err : String → StepResult
  | fault : StepResult
deriving DecidableEq

/-- One iteration of the dispatch loop of VM::run (src/src/vm.rs lines
90-236): fetch the element at ip, advance ip, and execute.  A Constant
element fetched as the current instruction is a no-op, as in the source
catch-all arm. -/
def step (st : VMState) : StepResult :=
  match listGet? st.code st.ip with
  | none => .fault
  | some (.Constant _) => .next { st with ip := st.ip + 1 } none
  | some (.Code .OpReturn) => .ret
  | some (.Code .OpAdd) =>
    match st.stack with
    | .String b :: .String a :: rest =>
      let r := internString st.interner (lookupString st.interner a ++ lookupString st.interner b)
      if rest.length < STACK_MAX then
        .next { st with ip := st.ip + 1, stack := .String r.1 :: rest, interner := r.2 } none
      else .fault
    | .String _ :: _ :: rest => .next { st with ip := st.ip + 1, stack := rest } none
    | .String _ :: [] => .fault
    | b :: a :: rest =>
      match valueAdd a b with
      | .ok v =>
        if rest.length < STACK_MAX then
          .next { st with ip := st.ip + 1, stack := v :: rest } none
        else .fault
      | .error m => .err m
    | _ => .fault
  | some (.Code .OpSubtract) =>
    match st.stack with
    | b :: a :: rest =>
      match valueSub a b with
      | .ok v =>
        if rest.length < STACK_MAX then
          .next { st with ip := st.ip + 1, stack := v :: rest } none
        else .fault
      | .error m => .err m
    | _ => .fault
  | some (.Code .OpMultiply) =>
    match st.stack with
    | b :: a :: rest =>
      match valueMul a b with
      | .ok v =>
        if rest.length < STACK_MAX then
          .next { st with ip := st.ip + 1, stack := v :: rest } none
        else .fault
      | .error m => .err m
    | _ => .fault
  | some (.Code .OpDivide) =>
    match st.stack with
    | b :: a :: rest =>
      match valueDiv a b with
      | .ok v =>
        if rest.length < STACK_MAX then
          .next { st with ip := st.ip + 1, stack := v :: rest } none
        else .fault
      | .error m => .err m
    | _ => .fault
  | some (.Code .OpPower) =>
    match st.stack with
    | b :: a :: rest =>
      match valuePow a b with
      | .ok v =>
        if rest.length < STACK_MAX then
          .next { st with ip := st.ip + 1, stack := v :: rest } none
        else .fault
      | .error m => .err m
    | _ => .fault
  | some (.Code .OpNegate) =>
    match st.stack with
    | v :: rest =>
      match valueNegate v with
      | .ok v2 =>
        if rest.length < STACK_MAX then
          .next { st with ip := st.ip + 1, stack := v2 :: rest } none
        else .fault
      | .error m => .err m
    | _ => .fault
  | some (.Code .OpNil) =>
    if st.stack.length < STACK_MAX then
      .next { st with ip := st.ip + 1, stack := .Nil :: st.stack } none
    else .fault
  | some (.Code .OpTrue) =>
    if st.stack.length < STACK_MAX then
      .next { st with ip := st.ip + 1, stack := .Boolean true :: st.stack } none
    else .fault
  | some (.Code .OpFalse) =>
    if st.stack.length < STACK_MAX then
      .next { st with ip := st.ip + 1, stack := .Boolean false :: st.stack } none
    else .fault
  | some (.Code .OpNot) =>
    match st.stack with
    | v :: rest =>
      if rest.length < STACK_MAX then
        .next { st with ip := st.ip + 1, stack := valueNot v :: rest } none
      else .fault
    | _ => .fault
  | some (.Code .OpEqualEqual) =>
    match st.stack with
    | b :: a :: rest =>
      if rest.length < STACK_MAX then
        .next { st with ip := st.ip + 1, stack := .Boolean (decide (a = b)) :: rest } none
      else .fault
    | _ => .fault
  | some (.Code .OpGreater) =>
    match st.stack with
    | b :: a :: rest =>
      match valueGreater a b with
      | .ok r =>
        if rest.length < STACK_MAX then
          .next { st with ip := st.ip + 1, stack := .Boolean r :: rest } none
        else .fault
      | .error m => .err m
    | _ => .fault
  | some (.Code .OpLess) =>
    match st.stack with
    | b :: a :: rest =>
      match valueLess a b with
      | .ok r =>
        if rest.length < STACK_MAX then
          .next { st with ip := st.ip + 1, stack := .Boolean r :: rest } none
        else .fault
      | .error m => .err m
    | _ => .fault
  | some (.Code .OpPrint) =>
    match st.stack with
    | v :: rest => .next { st with ip := st.ip + 1, stack := rest } (some v)
    | _ => .fault
  | some (.Code .OpPop) =>
    match st.stack with
    | _ :: rest => .next { st with ip := st.ip + 1, stack := rest } none
    | _ => .fault
  | some (.Code .OpConstant) =>
    match listGet? st.code (st.ip + 1) with
    | none => .fault
    | some (.Code _) => .err ("Invalid constant index")
    | some (.Constant idx) =>
      match listGet? st.constants idx with
      | none => .fault
      | some v =>
        if st.stack.length < STACK_MAX then
          .next { st with ip := st.ip + 2, stack := v :: st.stack } none
        else .fault
  | some (.Code .OpDefineGlobal) =>
    match listGet? st.code (st.ip + 1) with
    | none => .fault
    | some (.Code _) => .err ("Invalid constant index")
    | some (.Constant idx) =>
      match listGet? st.constants idx with
      | none => .fault
      | some c =>
        match st.stack with
        | v :: rest =>
          match c with
          | .Identifier k =>
            .next { st with
                    ip := st.ip + 2
                    stack := rest
                    globals := globalsInsert st.globals k v } none
          | _ => .next { st with ip := st.ip + 2, stack := rest } none
        | _ => .fault
  | some (.Code .OpGetGlobal) =>
    match listGet? st.code (st.ip + 1) with
    | none => .fault
    | some (.Code _) => .err ("Invalid constant index")
    | some (.Constant idx) =>
      match listGet? st.constants idx with
      | none => .fault
      | some c =>
        match c with
        | .Identifier k =>
          match globalsGet st.globals k with
          | some v =>
            if st.stack.length < STACK_MAX then
              .next { st with ip := st.ip + 2, stack := v :: st.stack } none
            else .fault
          | none => .err ("Undefined global variable")
        | _ => .err ("Invalid global variable")
  | some (.Code .OpSetGlobal) =>
    match listGet? st.code (st.ip + 1) with
    | none => .fault
    | some (.Code _) => .err ("Invalid constant index")
    | some (.Constant idx) =>
      match listGet? st.constants idx with
      | none => .fault
      | some c =>
        match c with
        | .Identifier k =>
          match st.stack with
          | v :: _ =>
            .next { st with ip := st.ip + 2, globals := globalsInsert st.globals k v } none
          | _ => .fault
        | _ => .err ("Invalid global variable")
  | some (.Code .OpCall) =>
    match listGet? st.code (st.ip + 1) with
    | none => .fault
    | some callee =>
      match st.stack with
      | caller :: rest =>
        match callee with
        | .Code _ => .err ("Invalid constant index")
        | .Constant idx =>
          match listGet? st.constants idx with
          | none => .fault
          | some c =>
            match c with
            | .Identifier s =>
              match caller with
              | .Tensor t =>
                if lookupString st.interner s = "relu" then
                  if rest.length < STACK_MAX then
                    .next { st with
                            ip := st.ip + 2
                            stack := .Tensor st.tensors.length :: rest
                            tensors := st.tensors ++ [reluNode st.tensors t] } none
                  else .fault
                else if lookupString st.interner s = "backward" then
                  .next { st with
                          ip := st.ip + 2
                          stack := rest
                          tensors := backwardPass st.tensors t } none
                else if lookupString st.interner s = "grad" then
                  if rest.length < STACK_MAX then
                    .next { st with
                            ip := st.ip + 2
                            stack := .Tensor st.tensors.length :: rest
                            tensors := st.tensors ++ [gradNode st.tensors t] } none
                  else .fault
                else
                  .err ("Undefined function. Currently only supports relu, backward and grad")
              | _ => .err ("Invalid function")
            | _ => .err ("Invalid function")
      | _ => .fault

/-- Terminal answer of a run: a Result as returned by VM::run, a fault
(Rust abort), or exhausted fuel.  Every constructor carries the console
trace, the ordered sequence of values the run printed to standard output
through OpPrint. -/
inductive Outcome where
  | done : Result → List ValueType → Outcome
  | fault : List ValueType → Outcome
  | timeout : List ValueType → Outcome
deriving DecidableEq

/-- Console trace of an outcome. -/
def outcomeConsole : Outcome → List ValueType
  | .done _ c => c
  | .fault c => c
  | .timeout c => c

/-- Fuelled dispatch loop.  outs accumulates print_outputs (returned
inside Result.Ok on OpReturn, dropped by error returns, exactly as in the
source), console accumulates the standard-output side effects; OpPrint
appends the printed value to both.  The ip strictly increases at every
iteration, so fuel beyond the code length never runs out. -/
def runLoop : Nat → VMState → List ValueType → List ValueType → Outcome
  | 0, _, _, console => .timeout console
  | fuel + 1, st, outs, console =>
    match step st with
    | .next st2 (some v) => runLoop fuel st2 (outs ++ [v]) (console ++ [v])
    | .next st2 none => runLoop fuel st2 outs console
    | .ret => .done (.Ok outs) console
    | .err m => .done (.RuntimeErr m) console
    | .fault => .fault console

/-- Run of a VM whose chunk was just installed: ip at zero, outputs
empty.  The fuel bound covers the whole code sequence. -/
def runVM (st : VMState) : Outcome :=
  runLoop (st.code.length + 1) st [] []

/-- Fresh VM holding a finished chunk and interner, as built by VM::init:
empty stack, empty globals table. -/
def initVM (code : List VectorType) (constants : List ValueType)
    (interner : List String) : VMState :=
  { code := code, constants := constants, ip := 0, stack := [],
    interner := interner, globals := [], tensors := [] }

/-- Modelled from the spec: the Display rendering of values lives in
value.rs, not under src/.  Per the output-channel contract: Number as a
decimal (exact on integer-valued numbers, the only ones exercised here),
Boolean as true or false, Nil as a fixed literal, String as the raw
interned text, Tensor as an implementation-defined rendering. -/
def displayValue (intr : List String) : ValueType → String
  | .Nil => "nil"
  | .Boolean true => "true"
  | .Boolean false => "false"
  | .Number q => if q.den = 1 then toString q.num else toString q.num ++ "/" ++ toString q.den
  | .String i => lookupString intr i
  | .Identifier i => lookupString intr i
  | .Tensor _ => "tensor"

/-- Case-sensitive substring test, used to settle wording claims about
error messages. -/
def strContains (hay needle : String) : Bool :=
  (List.range (hay.length + 1)).any
    (fun i => decide (((hay.toList.drop i).take needle.length) = needle.toList))

/-! ## Concrete programs

Bytecode for the end-to-end scenarios, written exactly as the compiler
contract of the spec lays out statements: literals through OpConstant,
a binary operator after its operands, OpPrint after the printed
expression, OpReturn at the end. -/

/-- Chunk code for the source print 1 + 2; . -/
def cpCode : List VectorType :=
  [.Code .OpConstant, .Constant 0, .Code .OpConstant, .Constant 1,
   .Code .OpAdd, .Code .OpPrint, .Code .OpReturn]

/-- Constant pool for the source print 1 + 2; . -/
def cpConsts : List ValueType := [.Number 1, .Number 2]

/-- VM holding the chunk of print 1 + 2; . -/
def cpVM : VMState := initVM cpCode cpConsts []

/-- Chunk code for the source print 1; print y; with y never defined:
one print executes, then OpGetGlobal faults the run. -/
def ceCode : List VectorType :=
  [.Code .OpConstant, .Constant 0, .Code .OpPrint,
   .Code .OpGetGlobal, .Constant 1, .Code .OpReturn]

/-- Constant pool for print 1; print y; . -/
def ceConsts : List ValueType := [.Number 1, .Identifier 0]

/-- VM holding the chunk of print 1; print y; with y interned but never
bound. -/
def ceVM : VMState := initVM ceCode ceConsts ["y"]

/-- Chunk code for the source print "foo" + "bar"; . -/
def csCode : List VectorType :=
  [.Code .OpConstant, .Constant 0, .Code .OpConstant, .Constant 1,
   .Code .OpAdd, .Code .OpPrint, .Code .OpReturn]

/-- Constant pool for print "foo" + "bar"; . -/
def csConsts : List ValueType := [.String 0, .String 1]

/-- VM holding the chunk of print "foo" + "bar"; . -/
def csVM : VMState := initVM csCode csConsts ["foo", "bar"]

/-- Chunk code for the source print 1 + "a"; : statically balanced, but
OpAdd sees a String on top of a Number and silently drops both, so the
following OpPrint pops an empty stack. -/
def cfCode : List VectorType :=
  [.Code .OpConstant, .Constant 0, .Code .OpConstant, .Constant 1,
   .Code .OpAdd, .Code .OpPrint, .Code .OpReturn]

/-- Constant pool for print 1 + "a"; . -/
def cfConsts : List ValueType := [.Number 1, .String 0]

/-- VM holding the chunk of print 1 + "a"; . -/
def cfVM : VMState := initVM cfCode cfConsts ["a"]


/-! ## Output behaviour of the loop -/

/-- Printed side effects are never retracted: whatever console trace was
accumulated when the loop proceeds is an initial segment of the final
console trace, for every terminal answer. -/
lemma runLoop_console_extends (f : Nat) (st : VMState) (outs console : List ValueType) :
    ∃ t, outcomeConsole (runLoop f st outs console) = console ++ t := by
  induction f generalizing st outs console with
  | zero => exact ⟨[], by simp [runLoop, outcomeConsole]⟩
  | succ f ih =>
    show ∃ t, outcomeConsole (match step st with
      | .next st2 (some v) => runLoop f st2 (outs ++ [v]) (console ++ [v])
      | .next st2 none => runLoop f st2 outs console
      | .ret => .done (.Ok outs) console
      | .err m => .done (.RuntimeErr m) console
      | .fault => .fault console) = console ++ t
    cases h : step st with
    | next st2 p =>
      cases p with
      | none => simpa using ih st2 outs console
      | some v =>
        obtain ⟨t, ht⟩ := ih st2 (outs ++ [v]) (console ++ [v])
        exact ⟨[v] ++ t, by simpa [List.append_assoc] using ht⟩
    | ret => exact ⟨[], by simp [outcomeConsole]⟩
    | err m => exact ⟨[], by simp [outcomeConsole]⟩
    | fault => exact ⟨[], by simp [outcomeConsole]⟩

/-- When the two accumulators start equal, an Ok answer returns exactly
the console trace: the returned output sequence and the printed side
effects stay in lockstep. -/
lemma runLoop_ok_outs (f : Nat) (st : VMState) (acc o c : List ValueType)
    (h : runLoop f st acc acc = .done (.Ok o) c) : o = c := by
  induction f generalizing st acc with
  | zero => exact absurd h (by simp [runLoop])
  | succ f ih =>
    rw [runLoop] at h
    cases hs : step st with
    | next st2 p =>
      rw [hs] at h
      cases p with
      | none => exact ih st2 acc h
      | some v => exact ih st2 (acc ++ [v]) h
    | ret =>
      rw [hs] at h
      injection h with h1 h2
      injection h1 with h1
      exact h1.symm.trans h2
    | err m =>
      rw [hs] at h
      injection h with h1 h2
      exact absurd h1 (by simp)
    | fault => rw [hs] at h; exact absurd h (by simp)

/-- Evaluation of the print 1 + 2; program. -/
lemma cp_run_eval : runVM cpVM = .done (.Ok [.Number 3]) [.Number 3] := by
  simp [runVM, runLoop, step, cpVM, cpCode, cpConsts, initVM, listGet?, valueAdd, STACK_MAX]
  norm_num

/-- C1 counterexample: the program print 1; print y; (y unbound) prints
one value and then raises a RuntimeError, but the error result returned
by run carries no output sequence at all, so it does not carry the value
printed before the fault as the claim states. -/
theorem c1_counterexample :
    runVM ceVM = .done (.RuntimeErr ("Undefined global variable")) [.Number 1] ∧
    resultOutputs (.RuntimeErr ("Undefined global variable")) ≠
      some [ValueType.Number 1] := by
  exact ⟨by decide, by simp [resultOutputs]⟩

/-- C1 (amended): when a run ends in a RuntimeError, the printed side
effects are not retracted, the console trace accumulated before the
fault being an initial segment of the final console trace, but the
returned error Result carries only the message and no output sequence:
only the Ok variant carries one. -/
theorem c1_error_result_and_console (f : Nat) (st : VMState)
    (outs console c2 : List ValueType) (m : String)
    (h : runLoop f st outs console = .done (.RuntimeErr m) c2) :
    c2.take console.length = console ∧ resultOutputs (.RuntimeErr m) = none := by
  refine ⟨?_, rfl⟩
  obtain ⟨t, ht⟩ := runLoop_console_extends f st outs console
  rw [h] at ht
  simp only [outcomeConsole] at ht
  rw [ht]
  exact List.take_left console t

/-- Witness for C1 at a mid-run state of print 1; print y; where the
value one was already printed. -/
theorem c1_error_result_and_console_witness :
    ([ValueType.Number 1] : List ValueType).take 1 = [ValueType.Number 1] ∧
    resultOutputs (.RuntimeErr ("Undefined global variable")) = none := by
  have h := c1_error_result_and_console 4
    { ceVM with ip := 3, stack := [] } [.Number 1] [.Number 1]
    [.Number 1] "Undefined global variable" (by decide)
  simpa using h

/-- C4: a run that reaches OpReturn returns Ok holding exactly the
sequence of values printed by OpPrint, in print order (the returned
outputs coincide with the console trace when both accumulators start
empty); in particular the program print 1 + 2; returns Ok of the single
value three, the same value the console received, and it renders as the
text 3. -/
theorem c4_ok_outputs :
    (∀ (f : Nat) (st : VMState) (acc o c : List ValueType),
        runLoop f st acc acc = .done (.Ok o) c → o = c) ∧
    runVM cpVM = .done (.Ok [.Number 3]) [.Number 3] ∧
    ([ValueType.Number 3].map (displayValue cpVM.interner)) = ["3"] := by
  refine ⟨?_, cp_run_eval, ?_⟩
  · intro f st acc o c h
    exact runLoop_ok_outs f st acc o c h
  · norm_num [displayValue]
    rfl

/-- Witness for C4 on the program print 1 + 2; . -/
theorem c4_ok_outputs_witness :
    ([ValueType.Number 3] : List ValueType) = [ValueType.Number 3] :=
  c4_ok_outputs.1 8 cpVM [] [.Number 3] [.Number 3]
    (by simpa [runVM] using cp_run_eval)

/-- Inserting a binding makes it the one the table returns for that key,
whether or not the key was bound before. -/
lemma globalsGet_insert (g : List (StringObjIdx × ValueType)) (k : StringObjIdx)
    (v : ValueType) : globalsGet (globalsInsert g k v) k = some v := by
  induction g with
  | nil => simp [globalsInsert, globalsGet]
  | cons p rest ih =>
    by_cases h : p.1 = k
    · simp [globalsInsert, h, globalsGet]
    · simp [globalsInsert, h, globalsGet, ih]

/-- C7: OpSetGlobal with an Identifier constant peeks the value on top of
the stack without popping it (the resulting state keeps the stack intact)
and writes the binding into the globals table unconditionally; the insert
succeeds, creating or overwriting the binding, so the key afterwards maps
to the peeked value whatever it mapped to before. -/
theorem c7_set_global (st : VMState) (idx k : Nat) (v : ValueType)
    (rest : List ValueType)
    (hi : listGet? st.code st.ip = some (.Code .OpSetGlobal))
    (hc : listGet? st.code (st.ip + 1) = some (.Constant idx))
    (hk : listGet? st.constants idx = some (.Identifier k))
    (hs : st.stack = v :: rest) :
    step st = .next { st with
                      ip := st.ip + 2
                      globals := globalsInsert st.globals k v } none ∧
    globalsGet (globalsInsert st.globals k v) k = some v := by
  constructor
  · simp only [step, hi, hc, hk, hs]
  · exact globalsGet_insert st.globals k v

/-- State for the C7 witness: an OpSetGlobal instruction about to execute
with an empty globals table and the number five on the stack. -/
def c7st : VMState :=
  { code := [.Code .OpSetGlobal, .Constant 0, .Code .OpReturn],
    constants := [.Identifier 0], ip := 0, stack := [.Number 5],
    interner := ["x"], globals := [], tensors := [] }

/-- Witness for C7: the concrete assignment executes and binds the
previously undefined identifier. -/
theorem c7_set_global_witness :
    step c7st = .next { c7st with
                        ip := c7st.ip + 2
                        globals := globalsInsert c7st.globals 0 (.Number 5) } none ∧
    globalsGet (globalsInsert c7st.globals 0 (.Number 5)) 0 = some (.Number 5) :=
  c7_set_global c7st 0 0 (.Number 5) [] rfl rfl rfl rfl

/-- C6 counterexample: reading an unbound global raises a RuntimeError
whose message is Undefined global variable with a capital U, which does
not contain the lowercase text the claim quotes. -/
theorem c6_counterexample :
    runVM (initVM [.Code .OpGetGlobal, .Constant 0, .Code .OpReturn]
        [.Identifier 0] ["y"]) =
      .done (.RuntimeErr ("Undefined global variable")) [] ∧
    strContains ("Undefined global variable") ("undefined global variable") = false := by
  exact ⟨by decide, by decide⟩

/-- C6 (amended): OpGetGlobal with an Identifier constant pushes the
bound value when the globals table has a binding, and raises a
RuntimeError whose message is exactly Undefined global variable when it
has none. -/
theorem c6_get_global (st : VMState) (idx k : Nat)
    (hi : listGet? st.code st.ip = some (.Code .OpGetGlobal))
    (hc : listGet? st.code (st.ip + 1) = some (.Constant idx))
    (hk : listGet? st.constants idx = some (.Identifier k))
    (hcap : st.stack.length < STACK_MAX) :
    (∀ v, globalsGet st.globals k = some v →
        step st = .next { st with ip := st.ip + 2, stack := v :: st.stack } none) ∧
    (globalsGet st.globals k = none →
        step st = .err ("Undefined global variable")) := by
  constructor
  · intro v hv
    simp only [step, hi, hc, hk, hv, hcap, if_true]
  · intro hv
    simp only [step, hi, hc, hk, hv]

/-- State for the C6 witness: an OpGetGlobal instruction about to read a
bound global. -/
def c6st : VMState :=
  { code := [.Code .OpGetGlobal, .Constant 0, .Code .OpReturn],
    constants := [.Identifier 0], ip := 0, stack := [],
    interner := ["x"], globals := [(0, .Number 7)], tensors := [] }

/-- Witness for C6: the bound value is pushed. -/
theorem c6_get_global_witness :
    step c6st = .next { c6st with
                        ip := c6st.ip + 2
                        stack := ValueType.Number 7 :: c6st.stack } none :=
  (c6_get_global c6st 0 0 rfl rfl rfl (by decide)).1 (.Number 7) rfl

/-- C10: when OpAdd fires with a String on top of the stack above a
non-String value, the VM pops both operands, pushes nothing and raises no
error: the stack silently shrinks by two and execution continues at the
next instruction. -/
theorem c10_mixed_add (st : VMState) (b : StringObjIdx) (a : ValueType)
    (rest : List ValueType)
    (hi : listGet? st.code st.ip = some (.Code .OpAdd))
    (hs : st.stack = .String b :: a :: rest)
    (ha : isStringV a = false) :
    step st = .next { st with ip := st.ip + 1, stack := rest } none ∧
    ∀ m, step st ≠ .err m := by
  have h1 : step st = .next { st with ip := st.ip + 1, stack := rest } none := by
    cases a with
    | String i => simp [isStringV] at ha
    | Nil => simp only [step, hi, hs]
    | Boolean x => simp only [step, hi, hs]
    | Number x => simp only [step, hi, hs]
    | Identifier x => simp only [step, hi, hs]
    | Tensor x => simp only [step, hi, hs]
  refine ⟨h1, fun m hm => ?_⟩
  rw [h1] at hm
  simp at hm

/-- State for the C10 witness: OpAdd over a String atop a Number. -/
def c10st : VMState :=
  { code := [.Code .OpAdd, .Code .OpReturn], constants := [], ip := 0,
    stack := [.String 0, .Number 1], interner := ["a"], globals := [],
    tensors := [] }

/-- Witness for C10 at the concrete mixed-operand state. -/
theorem c10_mixed_add_witness :
    step c10st = .next { c10st with ip := c10st.ip + 1, stack := [] } none :=
  (c10_mixed_add c10st 0 (.Number 1) [] rfl rfl rfl).1

/-- Addition of values errors whenever the operands are not both
Numbers. -/
lemma valueAdd_err (a b : ValueType)
    (h : ¬(isNumberV a = true ∧ isNumberV b = true)) :
    ∃ m, valueAdd a b = .error m := by
  cases a <;> cases b <;> first
    | exact ⟨_, rfl⟩
    | exact absurd ⟨rfl, rfl⟩ h

/-- Subtraction of values errors whenever the operands are not both
Numbers. -/
lemma valueSub_err (a b : ValueType)
    (h : ¬(isNumberV a = true ∧ isNumberV b = true)) :
    ∃ m, valueSub a b = .error m := by
  cases a <;> cases b <;> first
    | exact ⟨_, rfl⟩
    | exact absurd ⟨rfl, rfl⟩ h

/-- Multiplication of values errors whenever the operands are not both
Numbers. -/
lemma valueMul_err (a b : ValueType)
    (h : ¬(isNumberV a = true ∧ isNumberV b = true)) :
    ∃ m, valueMul a b = .error m := by
  cases a <;> cases b <;> first
    | exact ⟨_, rfl⟩
    | exact absurd ⟨rfl, rfl⟩ h

/-- Division of values errors whenever the operands are not both
Numbers. -/
lemma valueDiv_err (a b : ValueType)
    (h : ¬(isNumberV a = true ∧ isNumberV b = true)) :
    ∃ m, valueDiv a b = .error m := by
  cases a <;> cases b <;> first
    | exact ⟨_, rfl⟩
    | exact absurd ⟨rfl, rfl⟩ h

/-- Power of values errors whenever the operands are not both Numbers. -/
lemma valuePow_err (a b : ValueType)
    (h : ¬(isNumberV a = true ∧ isNumberV b = true)) :
    ∃ m, valuePow a b = .error m := by
  cases a <;> cases b <;> first
    | exact ⟨_, rfl⟩
    | exact absurd ⟨rfl, rfl⟩ h

/-- Ordering of values errors whenever the operands are not both
Numbers. -/
lemma valueGreater_err (a b : ValueType)
    (h : ¬(isNumberV a = true ∧ isNumberV b = true)) :
    ∃ m, valueGreater a b = .error m := by
  cases a <;> cases b <;> first
    | exact ⟨_, rfl⟩
    | exact absurd ⟨rfl, rfl⟩ h

/-- Ordering of values errors whenever the operands are not both
Numbers. -/
lemma valueLess_err (a b : ValueType)
    (h : ¬(isNumberV a = true ∧ isNumberV b = true)) :
    ∃ m, valueLess a b = .error m := by
  cases a <;> cases b <;> first
    | exact ⟨_, rfl⟩
    | exact absurd ⟨rfl, rfl⟩ h

/-- Negation errors on every non-Number operand. -/
lemma valueNegate_err (v : ValueType) (h : isNumberV v = false) :
    ∃ m, valueNegate v = .error m := by
  cases v <;> first
    | exact ⟨_, rfl⟩
    | simp [isNumberV] at h

/-- State for the C2 counterexample: OpAdd over a String atop a Number,
an incompatible pairing by the claim's enumeration. -/
def c2st : VMState :=
  { code := [.Code .OpAdd, .Code .OpReturn], constants := [], ip := 0,
    stack := [.String 0, .Number 1], interner := ["a"], globals := [],
    tensors := [] }

/-- C2 counterexample: with a String on top of a Number, OpAdd neither
raises a RuntimeError nor pushes a result; it silently drops both
operands and continues, refuting the claim that every incompatible
pairing raises a RuntimeError. -/
theorem c2_counterexample :
    step c2st = .next { c2st with ip := 1, stack := [] } none ∧
    ∀ m, step c2st ≠ .err m := by
  have h1 : step c2st = .next { c2st with ip := 1, stack := [] } none := by decide
  refine ⟨h1, fun m hm => ?_⟩
  rw [h1] at hm
  simp at hm

/-- C2 (amended): every arithmetic opcode (OpSubtract, OpMultiply,
OpDivide, OpPower and OpNegate; OpAdd whenever the top of stack is not a
String) and every ordering opcode (OpGreater, OpLess) raises a
RuntimeError when its popped operands are not compatible (both Number);
the single exception forced by the code is OpAdd with a String on top of
a non-String, which dispatches to concatenation and silently drops both
operands instead (see the C10 theorem). -/
theorem c2_incompatible_operands :
    (∀ (st : VMState) (b a : ValueType) (rest : List ValueType),
      listGet? st.code st.ip = some (.Code .OpSubtract) → st.stack = b :: a :: rest →
      ¬(isNumberV a = true ∧ isNumberV b = true) → ∃ m, step st = .err m) ∧
    (∀ (st : VMState) (b a : ValueType) (rest : List ValueType),
      listGet? st.code st.ip = some (.Code .OpMultiply) → st.stack = b :: a :: rest →
      ¬(isNumberV a = true ∧ isNumberV b = true) → ∃ m, step st = .err m) ∧
    (∀ (st : VMState) (b a : ValueType) (rest : List ValueType),
      listGet? st.code st.ip = some (.Code .OpDivide) → st.stack = b :: a :: rest →
      ¬(isNumberV a = true ∧ isNumberV b = true) → ∃ m, step st = .err m) ∧
    (∀ (st : VMState) (b a : ValueType) (rest : List ValueType),
      listGet? st.code st.ip = some (.Code .OpPower) → st.stack = b :: a :: rest →
      ¬(isNumberV a = true ∧ isNumberV b = true) → ∃ m, step st = .err m) ∧
    (∀ (st : VMState) (b a : ValueType) (rest : List ValueType),
      listGet? st.code st.ip = some (.Code .OpGreater) → st.stack = b :: a :: rest →
      ¬(isNumberV a = true ∧ isNumberV b = true) → ∃ m, step st = .err m) ∧
    (∀ (st : VMState) (b a : ValueType) (rest : List ValueType),
      listGet? st.code st.ip = some (.Code .OpLess) → st.stack = b :: a :: rest →
      ¬(isNumberV a = true ∧ isNumberV b = true) → ∃ m, step st = .err m) ∧
    (∀ (st : VMState) (b a : ValueType) (rest : List ValueType),
      listGet? st.code st.ip = some (.Code .OpAdd) → st.stack = b :: a :: rest →
      isStringV b = false →
      ¬(isNumberV a = true ∧ isNumberV b = true) → ∃ m, step st = .err m) ∧
    (∀ (st : VMState) (v : ValueType) (rest : List ValueType),
      listGet? st.code st.ip = some (.Code .OpNegate) → st.stack = v :: rest →
      isNumberV v = false → ∃ m, step st = .err m) := by
  refine ⟨?_, ?_, ?_, ?_, ?_, ?_, ?_, ?_⟩
  · intro st b a rest hi hs h
    obtain ⟨m, hm⟩ := valueSub_err a b h
    exact ⟨m, by simp only [step, hi, hs, hm]⟩
  · intro st b a rest hi hs h
    obtain ⟨m, hm⟩ := valueMul_err a b h
    exact ⟨m, by simp only [step, hi, hs, hm]⟩
  · intro st b a rest hi hs h
    obtain ⟨m, hm⟩ := valueDiv_err a b h
    exact ⟨m, by simp only [step, hi, hs, hm]⟩
  · intro st b a rest hi hs h
    obtain ⟨m, hm⟩ := valuePow_err a b h
    exact ⟨m, by simp only [step, hi, hs, hm]⟩
  · intro st b a rest hi hs h
    obtain ⟨m, hm⟩ := valueGreater_err a b h
    exact ⟨m, by simp only [step, hi, hs, hm]⟩
  · intro st b a rest hi hs h
    obtain ⟨m, hm⟩ := valueLess_err a b h
    exact ⟨m, by simp only [step, hi, hs, hm]⟩
  · intro st b a rest hi hs hb h
    obtain ⟨m, hm⟩ := valueAdd_err a b h
    refine ⟨m, ?_⟩
    cases b with
    | String i => simp [isStringV] at hb
    | Nil => simp only [step, hi, hs, hm]
    | Boolean x => simp only [step, hi, hs, hm]
    | Number x => simp only [step, hi, hs, hm]
    | Identifier x => simp only [step, hi, hs, hm]
    | Tensor x => simp only [step, hi, hs, hm]
  · intro st v rest hi hs h
    obtain ⟨m, hm⟩ := valueNegate_err v h
    exact ⟨m, by simp only [step, hi, hs, hm]⟩

/-- State for the C2 witness: OpSubtract over a Boolean and Nil. -/
def c2wst : VMState :=
  { code := [.Code .OpSubtract, .Code .OpReturn], constants := [], ip := 0,
    stack := [.Nil, .Boolean true], interner := [], globals := [],
    tensors := [] }

/-- Witness for C2: subtracting Nil from a Boolean raises a
RuntimeError. -/
theorem c2_incompatible_operands_witness : ∃ m, step c2wst = .err m :=
  c2_incompatible_operands.1 c2wst .Nil (.Boolean true) [] rfl rfl
    (by simp [isNumberV])

/-- A text that was never interned is not found. -/
lemma findString_none (l : List String) (s : String) (h : s ∉ l) :
    findString l s = none := by
  induction l with
  | nil => rfl
  | cons x xs ih =>
    simp only [List.mem_cons, not_or] at h
    have hx : ¬x = s := fun hh => h.1 hh.symm
    simp [findString, hx, ih h.2]

/-- Interning a fresh text appends it and issues the next handle. -/
lemma internString_fresh (l : List String) (s : String) (h : s ∉ l) :
    internString l s = (l.length, l ++ [s]) := by
  simp [internString, findString_none l s h]

/-- C5: OpAdd on two Strings pops both, looks up both texts, concatenates
them with the earlier-pushed operand's text first, interns the result and
pushes the resulting String handle; when the concatenated text was not
already interned the result handle is fresh, hence distinct from both
input handles.  On the program print "foo" + "bar"; the concatenation
step pushes the handle of the newly interned text foobar, the run prints
exactly that value, and it renders as foobar. -/
theorem c5_concatenate (st : VMState) (a b r : StringObjIdx)
    (intr2 : List String) (rest : List ValueType)
    (hi : listGet? st.code st.ip = some (.Code .OpAdd))
    (hs : st.stack = .String b :: .String a :: rest)
    (hcap : rest.length < STACK_MAX)
    (hr : internString st.interner
        (lookupString st.interner a ++ lookupString st.interner b) = (r, intr2)) :
    (step st = .next { st with
        ip := st.ip + 1
        stack := .String r :: rest
        interner := intr2 } none ∧
     (lookupString st.interner a ++ lookupString st.interner b ∉ st.interner →
        a < st.interner.length → b < st.interner.length → r ≠ a ∧ r ≠ b)) ∧
    (step { csVM with ip := 4, stack := [.String 1, .String 0] } =
      .next { csVM with
              ip := 5
              stack := [.String 2]
              interner := ["foo", "bar", "foobar"] } none ∧
     displayValue ["foo", "bar", "foobar"] (.String 2) = "foobar" ∧
     runVM csVM = .done (.Ok [.String 2]) [.String 2]) := by
  refine ⟨⟨?_, ?_⟩, by decide, by decide, by decide⟩
  · simp only [step, hi, hs, hcap, if_true, hr]
  · intro hnot hA hB
    rw [internString_fresh st.interner _ hnot] at hr
    have hrlen : r = st.interner.length := by
      have := congrArg Prod.fst hr
      simpa using this.symm
    constructor
    · intro hEq
      rw [hrlen] at hEq
      rw [hEq] at hA
      exact absurd hA (lt_irrefl a)
    · intro hEq
      rw [hrlen] at hEq
      rw [hEq] at hB
      exact absurd hB (lt_irrefl b)

/-- Witness for C5: the concatenation step on the program
print "foo" + "bar"; pushes the fresh handle, distinct from both
inputs. -/
theorem c5_concatenate_witness :
    (step { csVM with ip := 4, stack := [.String 1, .String 0] } =
      .next { { csVM with ip := 4, stack := [.String 1, .String 0] } with
              ip := 4 + 1
              stack := .String 2 :: []
              interner := ["foo", "bar", "foobar"] } none ∧
     ((2 : Nat) ≠ 0 ∧ (2 : Nat) ≠ 1)) := by
  have h := c5_concatenate { csVM with ip := 4, stack := [.String 1, .String 0] }
    0 1 2 ["foo", "bar", "foobar"] [] rfl rfl (by decide) (by decide)
  exact ⟨h.1.1, h.1.2 (by decide) (by decide) (by decide)⟩

/-- C8: OpCall pops the callee value, which must be a Tensor, any other
variant raising a RuntimeError; with a Tensor callee the dispatch on the
method-name constant pushes the relu result tensor for relu, runs the
in-place backward pass pushing nothing for backward, pushes the gradient
tensor for grad, and raises a RuntimeError for any other name. -/
theorem c8_call_dispatch (st : VMState) (idx s : Nat) (v : ValueType)
    (rest : List ValueType)
    (hi : listGet? st.code st.ip = some (.Code .OpCall))
    (hc : listGet? st.code (st.ip + 1) = some (.Constant idx))
    (hk : listGet? st.constants idx = some (.Identifier s))
    (hs : st.stack = v :: rest)
    (hcap : rest.length < STACK_MAX) :
    ((∀ t, v ≠ .Tensor t) → step st = .err ("Invalid function")) ∧
    (∀ t, v = .Tensor t →
      (lookupString st.interner s = "relu" →
        step st = .next { st with
            ip := st.ip + 2
            stack := .Tensor st.tensors.length :: rest
            tensors := st.tensors ++ [reluNode st.tensors t] } none) ∧
      (lookupString st.interner s = "backward" →
        step st = .next { st with
            ip := st.ip + 2
            stack := rest
            tensors := backwardPass st.tensors t } none) ∧
      (lookupString st.interner s = "grad" →
        step st = .next { st with
            ip := st.ip + 2
            stack := .Tensor st.tensors.length :: rest
            tensors := st.tensors ++ [gradNode st.tensors t] } none) ∧
      (lookupString st.interner s ≠ "relu" →
       lookupString st.interner s ≠ "backward" →
       lookupString st.interner s ≠ "grad" →
        step st =
          .err ("Undefined function. Currently only supports relu, backward and grad"))) := by
  constructor
  · intro hnt
    cases v with
    | Tensor t => exact absurd rfl (hnt t)
    | Nil => simp only [step, hi, hc, hk, hs]
    | Boolean x => simp only [step, hi, hc, hk, hs]
    | Number x => simp only [step, hi, hc, hk, hs]
    | String x => simp only [step, hi, hc, hk, hs]
    | Identifier x => simp only [step, hi, hc, hk, hs]
  · intro t hv
    subst hv
    refine ⟨?_, ?_, ?_, ?_⟩
    · intro hname
      simp only [step, hi, hc, hk, hs, hname, if_true, hcap]
    · intro hname
      simp only [step, hi, hc, hk, hs, hname, hcap, if_true]
      rw [if_neg (by decide)]
    · intro hname
      simp only [step, hi, hc, hk, hs, hname, hcap, if_true]
      rw [if_neg (by decide), if_neg (by decide)]
    · intro hn1 hn2 hn3
      simp only [step, hi, hc, hk, hs, hn1, hn2, hn3, if_false]

/-- State for the C8 witness: a relu call on a two-element tensor. -/
def c8st : VMState :=
  { code := [.Code .OpCall, .Constant 0, .Code .OpReturn],
    constants := [.Identifier 0], ip := 0, stack := [.Tensor 0],
    interner := ["relu"], globals := [],
    tensors := [⟨[-1, 2], [0, 0], []⟩] }

/-- Witness for C8: the concrete relu dispatch pushes the new tensor. -/
theorem c8_call_dispatch_witness :
    step c8st = .next { c8st with
        ip := c8st.ip + 2
        stack := .Tensor c8st.tensors.length :: []
        tensors := c8st.tensors ++ [reluNode c8st.tensors 0] } none :=
  ((c8_call_dispatch c8st 0 0 (.Tensor 0) [] rfl rfl rfl rfl (by decide)).2
    0 rfl).1 rfl

/-- Multiplying a buffer elementwise by ones of the same length is the
identity. -/
lemma zipMulQ_ones (xs : List ℚ) : zipMulQ xs (onesQ xs.length) = xs := by
  induction xs with
  | nil => rfl
  | cons x t ih => simp [zipMulQ, onesQ, List.replicate] at ih ⊢; exact ih

/-- Adding a buffer elementwise to zeros of the same length is the
identity. -/
lemma zipAddQ_zeros (xs : List ℚ) : zipAddQ (zerosQ xs.length) xs = xs := by
  induction xs with
  | nil => rfl
  | cons x t ih => simp [zipAddQ, zerosQ, List.replicate] at ih ⊢; exact ih

/-- Ones-multiplication identity restated for a mapped buffer. -/
lemma zipMulQ_map_ones (d : List ℚ) (f : ℚ → ℚ) :
    zipMulQ (d.map f) (onesQ d.length) = d.map f := by
  have h : d.length = (d.map f).length := by simp
  rw [h, zipMulQ_ones]

/-- Zeros-addition identity restated for a mapped buffer. -/
lemma zipAddQ_zeros_map (d : List ℚ) (f : ℚ → ℚ) :
    zipAddQ (zerosQ d.length) (d.map f) = d.map f := by
  have h : d.length = (d.map f).length := by simp
  rw [h, zipAddQ_zeros]

/-- C9: for every tensor, relu is the elementwise maximum of zero and
each element, and after a backward pass on the relu result the input
tensor's gradient is one where the input element is positive and zero
otherwise; in particular the tensor with elements minus one and two has
relu zero and two, and gradient zero and one after backward. -/
theorem c9_relu_autograd :
    (∀ d : List ℚ,
      (reluNode [⟨d, zerosQ d.length, []⟩] 0).data = d.map (fun x => max 0 x) ∧
      gradientOf (backwardPass [⟨d, zerosQ d.length, []⟩,
          reluNode [⟨d, zerosQ d.length, []⟩] 0] 1) 0 =
        d.map (fun x => if 0 < x then (1 : ℚ) else 0)) ∧
    ((reluNode [⟨[-1, 2], zerosQ 2, []⟩] 0).data = [0, 2] ∧
     gradientOf (backwardPass [⟨[-1, 2], zerosQ 2, []⟩,
         reluNode [⟨[-1, 2], zerosQ 2, []⟩] 0] 1) 0 = [0, 1]) := by
  have hgen : ∀ d : List ℚ,
      (reluNode [⟨d, zerosQ d.length, []⟩] 0).data = d.map (fun x => max 0 x) ∧
      gradientOf (backwardPass [⟨d, zerosQ d.length, []⟩,
          reluNode [⟨d, zerosQ d.length, []⟩] 0] 1) 0 =
        d.map (fun x => if 0 < x then (1 : ℚ) else 0) := by
    intro d
    constructor
    · simp [reluNode, getNode, listGet?]
    · have hrange : (List.range 2).reverse = [1, 0] := by decide
      simp only [backwardPass, hrange, getNode, listGet?, reluNode, setGradAt,
        backwardVisit, accumGradAt, gradientOf, List.foldl_cons, List.foldl_nil,
        List.set, Option.getD_some, List.length_map]
      simp [zipMulQ_map_ones, zipAddQ_zeros_map]
  refine ⟨hgen, ?_, ?_⟩
  · exact ((hgen [-1, 2]).1).trans (by norm_num)
  · exact ((hgen [-1, 2]).2).trans (by norm_num)

/-! ## Static stack discipline

A straight-line chunk (the instruction set has no jumps) admits a static
height check: walking the element sequence with the nominal stack effect
of each opcode, every opcode must find the operands it peeks or pops,
no height may exceed the stack capacity, and OpReturn must be reached
with an empty stack.  Operand-taking opcodes must be followed by a
Constant element that is in range of the pool (with an Identifier
payload where the VM requires one), and a bare Constant element must
never be fetched as an instruction. -/

/-- Number of stack slots an opcode touches (peeks or pops) below the
top: the height required before it executes. -/
def opNeeds : OpCode → Nat
  | .OpAdd | .OpSubtract | .OpMultiply | .OpDivide | .OpPower
  | .OpEqualEqual | .OpGreater | .OpLess => 2
  | .OpNegate | .OpNot | .OpPrint | .OpPop
  | .OpDefineGlobal | .OpSetGlobal | .OpCall => 1
  | .OpReturn | .OpConstant | .OpNil | .OpTrue | .OpFalse | .OpGetGlobal => 0

/-- Number of values an opcode pops. -/
def opPops : OpCode → Nat
  | .OpAdd | .OpSubtract | .OpMultiply | .OpDivide | .OpPower
  | .OpEqualEqual | .OpGreater | .OpLess => 2
  | .OpNegate | .OpNot | .OpPrint | .OpPop | .OpDefineGlobal | .OpCall => 1
  | .OpReturn | .OpConstant | .OpNil | .OpTrue | .OpFalse
  | .OpGetGlobal | .OpSetGlobal => 0

/-- Number of values an opcode pushes (nominal; OpCall is refined by its
operand). -/
def opPushes : OpCode → Nat
  | .OpAdd | .OpSubtract | .OpMultiply | .OpDivide | .OpPower
  | .OpEqualEqual | .OpGreater | .OpLess
  | .OpNegate | .OpNot | .OpConstant | .OpNil | .OpTrue | .OpFalse
  | .OpGetGlobal => 1
  | .OpReturn | .OpPrint | .OpPop | .OpDefineGlobal | .OpSetGlobal | .OpCall => 0

/-- Whether the opcode consumes the following Constant element. -/
def takesOperand : OpCode → Bool
  | .OpConstant | .OpDefineGlobal | .OpGetGlobal | .OpSetGlobal | .OpCall => true
  | _ => false

/-- Static validity of the operand constant for an operand-taking
opcode: the global opcodes require an Identifier, and OpCall additionally
requires its method-name handle to be one the interner issued. -/
def operandOk (intr : List String) : OpCode → ValueType → Bool
  | .OpConstant, _ => true
  | .OpDefineGlobal, .Identifier _ => true
  | .OpGetGlobal, .Identifier _ => true
  | .OpSetGlobal, .Identifier _ => true
  | .OpCall, .Identifier s => decide (s < intr.length)
  | _, _ => false

/-- Push count refined by the operand: a backward call pushes nothing,
every other method call pushes one value. -/
def opPushesOperand (intr : List String) : OpCode → ValueType → Nat
  | .OpCall, .Identifier s => if lookupString intr s = "backward" then 0 else 1
  | op, _ => opPushes op

/-- Static height walk over a code suffix starting at height h.  False on
an empty suffix (a complete program ends with OpReturn), on a bare
Constant element in instruction position, on a missing or invalid
operand, and on any height violation; OpReturn demands height zero. -/
def heightsOk (cs : List ValueType) (intr : List String) :
    List VectorType → Nat → Bool
  | [], _ => false
  | .Constant _ :: _, _ => false
  | .Code op :: rest, h =>
    if op = .OpReturn then decide (h = 0)
    else if h < opNeeds op then false
    else if takesOperand op then
      match rest with
      | .Constant idx :: rest2 =>
        match listGet? cs idx with
        | some c =>
          operandOk intr op c &&
          (decide (h - opPops op + opPushesOperand intr op c ≤ STACK_MAX) &&
           heightsOk cs intr rest2 (h - opPops op + opPushesOperand intr op c))
        | none => false
      | _ => false
    else
      decide (h - opPops op + opPushes op ≤ STACK_MAX) &&
      heightsOk cs intr rest (h - opPops op + opPushes op)

/-- Well-formedness of a VM state: the static walk accepts the code
suffix at the current instruction pointer starting from the current
stack height, and the height is within capacity. -/
def stateWF (st : VMState) : Bool :=
  heightsOk st.constants st.interner (st.code.drop st.ip) st.stack.length &&
  decide (st.stack.length ≤ STACK_MAX)

/-- The one dynamic configuration outside the static discipline: the
current instruction is OpAdd and the stack holds a String on top of a
non-String value. -/
def mixedAddAt (st : VMState) : Bool :=
  decide (listGet? st.code st.ip = some (.Code .OpAdd)) &&
  (match st.stack with
   | .String _ :: a :: _ => !isStringV a
   | _ => false)

/-- The execution from a state stays clear of the mixed OpAdd
configuration for the given number of steps. -/
def traceClean : Nat → VMState → Bool
  | 0, _ => true
  | f + 1, st =>
    !mixedAddAt st &&
    (match step st with
     | .next st2 _ => traceClean f st2
     | _ => true)

/-- C3 counterexample: the statically balanced program print 1 + "a";
passes the static height walk, yet its execution faults: the mixed OpAdd
silently drops two values and the following OpPrint pops an empty stack,
so a pop exceeds the number of values on the stack in a well-formed
program. -/
theorem c3_counterexample :
    stateWF cfVM = true ∧ runVM cfVM = .fault [] := by
  exact ⟨by decide, by decide⟩

/-- Indexing agrees with the head of the dropped suffix. -/
lemma listGet?_drop {α : Type} (l : List α) (n : Nat) :
    listGet? l n = (l.drop n).head? := by
  induction l generalizing n with
  | nil => cases n <;> rfl
  | cons x xs ih =>
    cases n with
    | zero => rfl
    | succ m => exact ih m

/-- Dropping one more element takes the tail of the suffix. -/
lemma drop_succ_tail {α : Type} (l : List α) (n : Nat) :
    l.drop (n + 1) = (l.drop n).tail := by
  induction l generalizing n with
  | nil => simp
  | cons x xs ih =>
    cases n with
    | zero => rfl
    | succ m => exact ih m

/-- Indexing into an extended list agrees on indices of the original. -/
lemma listGet?_append {α : Type} (l t : List α) (i : Nat) (h : i < l.length) :
    listGet? (l ++ t) i = listGet? l i := by
  induction l generalizing i with
  | nil => simp at h
  | cons x xs ih =>
    cases i with
    | zero => rfl
    | succ m => exact ih m (by simpa using h)

/-- Lookup of an issued handle is unchanged by appending to the
interner. -/
lemma lookupString_append (l ext : List String) (i : Nat) (h : i < l.length) :
    lookupString (l ++ ext) i = lookupString l i := by
  unfold lookupString
  rw [listGet?_append l ext i h]

/-- Interning only appends to the storage. -/
lemma internString_snd_extend (l : List String) (s : String) :
    ∃ ext, (internString l s).2 = l ++ ext := by
  cases hf : findString l s with
  | some i => exact ⟨[], by simp [internString, hf]⟩
  | none => exact ⟨[s], by simp [internString, hf]⟩

/-- A still-valid operand stays valid when the interner grows. -/
lemma operandOk_extend (intr ext : List String) (op : OpCode) (c : ValueType)
    (h : operandOk intr op c = true) : operandOk (intr ++ ext) op c = true := by
  cases op with
  | OpCall =>
    cases c with
    | Identifier s =>
      simp only [operandOk, decide_eq_true_eq, List.length_append] at h ⊢
      exact Nat.lt_of_lt_of_le h (Nat.le_add_right _ _)
    | Nil => simp [operandOk] at h
    | Boolean x => simp [operandOk] at h
    | Number x => simp [operandOk] at h
    | String x => simp [operandOk] at h
    | Tensor x => simp [operandOk] at h
  | OpConstant => rfl
  | OpDefineGlobal =>
    cases c with
    | Identifier s => rfl
    | Nil => simp [operandOk] at h
    | Boolean x => simp [operandOk] at h
    | Number x => simp [operandOk] at h
    | String x => simp [operandOk] at h
    | Tensor x => simp [operandOk] at h
  | OpGetGlobal =>
    cases c with
    | Identifier s => rfl
    | Nil => simp [operandOk] at h
    | Boolean x => simp [operandOk] at h
    | Number x => simp [operandOk] at h
    | String x => simp [operandOk] at h
    | Tensor x => simp [operandOk] at h
  | OpSetGlobal =>
    cases c with
    | Identifier s => rfl
    | Nil => simp [operandOk] at h
    | Boolean x => simp [operandOk] at h
    | Number x => simp [operandOk] at h
    | String x => simp [operandOk] at h
    | Tensor x => simp [operandOk] at h
  | OpReturn => simp [operandOk] at h
  | OpNil => simp [operandOk] at h
  | OpTrue => simp [operandOk] at h
  | OpFalse => simp [operandOk] at h
  | OpAdd => simp [operandOk] at h
  | OpSubtract => simp [operandOk] at h
  | OpMultiply => simp [operandOk] at h
  | OpDivide => simp [operandOk] at h
  | OpPower => simp [operandOk] at h
  | OpNegate => simp [operandOk] at h
  | OpNot => simp [operandOk] at h
  | OpEqualEqual => simp [operandOk] at h
  | OpGreater => simp [operandOk] at h
  | OpLess => simp [operandOk] at h
  | OpPrint => simp [operandOk] at h
  | OpPop => simp [operandOk] at h

/-- The operand-refined push count is stable when the interner grows. -/
lemma opPushesOperand_extend (intr ext : List String) (op : OpCode) (c : ValueType)
    (h : operandOk intr op c = true) :
    opPushesOperand (intr ++ ext) op c = opPushesOperand intr op c := by
  cases op <;> cases c <;> first
    | rfl
    | (simp only [operandOk, decide_eq_true_eq] at h
       simp only [opPushesOperand, lookupString_append intr ext _ h])



/-- The static walk at OpReturn accepts exactly height zero. -/
lemma heightsOk_ret (cs : List ValueType) (intr : List String)
    (tl : List VectorType) (h : Nat) :
    heightsOk cs intr (.Code .OpReturn :: tl) h = decide (h = 0) := by
  cases tl with
  | nil => rw [heightsOk.eq_def]; simp
  | cons e tl2 =>
    cases e with
    | Code op2 => rw [heightsOk.eq_def]; simp
    | Constant idx => rw [heightsOk.eq_def]; simp

/-- The static walk at an operand-free opcode, as an equation. -/
lemma heightsOk_simple (cs : List ValueType) (intr : List String) (op : OpCode)
    (tl : List VectorType) (h : Nat) (hne : ¬op = .OpReturn)
    (hto : takesOperand op = false) :
    heightsOk cs intr (.Code op :: tl) h =
      (decide (opNeeds op ≤ h) &&
       (decide (h - opPops op + opPushes op ≤ STACK_MAX) &&
        heightsOk cs intr tl (h - opPops op + opPushes op))) := by
  cases tl with
  | nil =>
    rw [heightsOk.eq_def]
    simp only [hto, Bool.false_eq_true, if_false, if_neg hne]
    by_cases hlt : h < opNeeds op
    · rw [if_pos hlt]
      simp [decide_eq_false (not_le.mpr hlt)]
    · rw [if_neg hlt]
      simp [not_lt.mp hlt]
  | cons e tl2 =>
    cases e with
    | Code op2 =>
      rw [heightsOk.eq_def]
      simp only [hto, Bool.false_eq_true, if_false, if_neg hne]
      by_cases hlt : h < opNeeds op
      · rw [if_pos hlt]
        simp [decide_eq_false (not_le.mpr hlt)]
      · rw [if_neg hlt]
        simp [not_lt.mp hlt]
    | Constant idx =>
      rw [heightsOk.eq_def]
      simp only [hto, Bool.false_eq_true, if_false, if_neg hne]
      by_cases hlt : h < opNeeds op
      · rw [if_pos hlt]
        simp [decide_eq_false (not_le.mpr hlt)]
      · rw [if_neg hlt]
        simp [not_lt.mp hlt]

/-- What the static walk guarantees at an operand-taking opcode. -/
lemma heightsOk_operand_elim (cs : List ValueType) (intr : List String)
    (op : OpCode) (tl : List VectorType) (h : Nat) (hne : ¬op = .OpReturn)
    (hto : takesOperand op = true)
    (hh : heightsOk cs intr (.Code op :: tl) h = true) :
    opNeeds op ≤ h ∧ ∃ idx c tl2, tl = .Constant idx :: tl2 ∧
      listGet? cs idx = some c ∧ operandOk intr op c = true ∧
      h - opPops op + opPushesOperand intr op c ≤ STACK_MAX ∧
      heightsOk cs intr tl2 (h - opPops op + opPushesOperand intr op c) = true := by
  cases tl with
  | nil =>
    rw [heightsOk.eq_def] at hh
    simp only [hto, if_true, if_neg hne] at hh
    by_cases hlt : h < opNeeds op
    · rw [if_pos hlt] at hh
      exact absurd hh (by simp)
    · rw [if_neg hlt] at hh
      exact absurd hh (by simp)
  | cons e tl2 =>
    cases e with
    | Code op2 =>
      rw [heightsOk.eq_def] at hh
      simp only [hto, if_true, if_neg hne] at hh
      by_cases hlt : h < opNeeds op
      · rw [if_pos hlt] at hh
        exact absurd hh (by simp)
      · rw [if_neg hlt] at hh
        exact absurd hh (by simp)
    | Constant idx =>
      rw [heightsOk.eq_def] at hh
      simp only [hto, if_true, if_neg hne] at hh
      by_cases hlt : h < opNeeds op
      · rw [if_pos hlt] at hh
        exact absurd hh (by simp)
      · rw [if_neg hlt] at hh
        cases hk : listGet? cs idx with
        | none =>
          rw [hk] at hh
          exact absurd hh (by simp)
        | some c =>
          rw [hk] at hh
          simp only [Bool.and_eq_true, decide_eq_true_eq] at hh
          exact ⟨not_lt.mp hlt, idx, c, tl2, rfl, hk, hh.1, hh.2.1, hh.2.2⟩

/-- Rebuilding the static walk at an operand-taking opcode. -/
lemma heightsOk_operand_intro (cs : List ValueType) (intr : List String)
    (op : OpCode) (idx : Nat) (c : ValueType) (tl2 : List VectorType) (h : Nat)
    (hne : ¬op = .OpReturn) (hto : takesOperand op = true)
    (hk : listGet? cs idx = some c) (hok : operandOk intr op c = true)
    (hneed : opNeeds op ≤ h)
    (hcap : h - opPops op + opPushesOperand intr op c ≤ STACK_MAX)
    (hrec : heightsOk cs intr tl2 (h - opPops op + opPushesOperand intr op c) = true) :
    heightsOk cs intr (.Code op :: .Constant idx :: tl2) h = true := by
  rw [heightsOk.eq_def]
  simp only [hto, if_true, if_neg hne, if_neg (not_lt.mpr hneed)]
  rw [hk]
  simp [hok, hcap, hrec]

/-- The static walk is stable when the interner grows: every operand it
validated mentions only handles the original interner issued. -/
lemma heightsOk_extend (cs : List ValueType) (intr ext : List String) :
    ∀ (n : Nat) (l : List VectorType) (h : Nat), l.length ≤ n →
      heightsOk cs intr l h = true → heightsOk cs (intr ++ ext) l h = true := by
  intro n
  induction n with
  | zero =>
    intro l h hl hh
    cases l with
    | nil =>
      rw [heightsOk.eq_def] at hh
      exact absurd hh (by simp)
    | cons a b => simp at hl
  | succ n ih =>
    intro l h hl hh
    cases l with
    | nil =>
      rw [heightsOk.eq_def] at hh
      exact absurd hh (by simp)
    | cons e tl =>
      cases e with
      | Constant k =>
        rw [heightsOk.eq_def] at hh
        exact absurd hh (by simp)
      | Code op =>
        by_cases hret : op = .OpReturn
        · subst hret
          rw [heightsOk_ret] at hh ⊢
          exact hh
        · cases hto : takesOperand op with
          | false =>
            rw [heightsOk_simple cs intr op tl h hret hto] at hh
            rw [heightsOk_simple cs (intr ++ ext) op tl h hret hto]
            simp only [Bool.and_eq_true] at hh ⊢
            refine ⟨hh.1, hh.2.1, ?_⟩
            have hl2 : tl.length ≤ n := by
              simp only [List.length_cons] at hl
              exact Nat.le_of_succ_le_succ hl
            exact ih tl _ hl2 hh.2.2
          | true =>
            obtain ⟨hneed, idx, c, tl2, htl, hk, hok, hcap, hrec⟩ :=
              heightsOk_operand_elim cs intr op tl h hret hto hh
            subst htl
            have hl2 : tl2.length ≤ n := by
              simp only [List.length_cons] at hl
              exact Nat.le_of_succ_le (Nat.le_of_succ_le_succ hl)
            refine heightsOk_operand_intro cs (intr ++ ext) op idx c tl2 h hret hto hk
              (operandOk_extend intr ext op c hok) hneed ?_ ?_
            · rw [opPushesOperand_extend intr ext op c hok]
              exact hcap
            · rw [opPushesOperand_extend intr ext op c hok]
              exact ih tl2 _ hl2 hrec

/-- Rebuilding well-formedness of a state from its parts. -/
lemma stateWF_of (st2 : VMState)
    (hh : heightsOk st2.constants st2.interner (st2.code.drop st2.ip)
        st2.stack.length = true)
    (hc : st2.stack.length ≤ STACK_MAX) : stateWF st2 = true := by
  simp [stateWF, hh, hc]

/-- A stack of height at least two splits off its two top values. -/
lemma length_two_split (l : List ValueType) (h2 : 2 ≤ l.length) :
    ∃ b a rest, l = b :: a :: rest := by
  cases l with
  | nil => simp at h2
  | cons b t =>
    cases t with
    | nil => simp at h2
    | cons a rest => exact ⟨b, a, rest, rfl⟩

/-- A stack of height at least one splits off its top value. -/
lemma length_one_split (l : List ValueType) (h1 : 1 ≤ l.length) :
    ∃ v rest, l = v :: rest := by
  cases l with
  | nil => simp at h1
  | cons v rest => exact ⟨v, rest, rfl⟩

/-- Safety conclusions of one step, abbreviating the statement of the
preservation lemma. -/
def StepSafe (st : VMState) : Prop :=
  (step st ≠ .fault) ∧ (step st = .ret → st.stack = []) ∧
  (∀ st2 p, step st = .next st2 p → stateWF st2 = true)

/-- An erroring step is safe. -/
lemma stepSafe_err (st : VMState) (m : String) (hstep : step st = .err m) :
    StepSafe st := by
  refine ⟨by rw [hstep]; simp, by rw [hstep]; simp, ?_⟩
  intro st2 p hn
  rw [hstep] at hn
  exact absurd hn (by simp)

/-- A continuing step into a well-formed state is safe. -/
lemma stepSafe_next (st st2 : VMState) (p : Option ValueType)
    (hstep : step st = .next st2 p) (hwf2 : stateWF st2 = true) :
    StepSafe st := by
  refine ⟨by rw [hstep]; simp, by rw [hstep]; simp, ?_⟩
  intro st3 q hn
  rw [hstep] at hn
  injection hn with h1 h2
  rw [← h1]
  exact hwf2

/-- A returning step with an empty stack is safe. -/
lemma stepSafe_ret (st : VMState) (hstep : step st = .ret)
    (hstack : st.stack = []) : StepSafe st := by
  refine ⟨by rw [hstep]; simp, fun _ => hstack, ?_⟩
  intro st2 p hn
  rw [hstep] at hn
  exact absurd hn (by simp)

/-- One step from a well-formed state away from the mixed OpAdd
configuration is safe: it cannot fault, a return happens on an empty
stack, and every continuation state is well-formed again. -/
lemma step_preserve (st : VMState) (hWF : stateWF st = true)
    (hmix : mixedAddAt st = false) : StepSafe st := by
  have hparts : heightsOk st.constants st.interner (st.code.drop st.ip)
      st.stack.length = true ∧ st.stack.length ≤ STACK_MAX := by
    simpa [stateWF, Bool.and_eq_true] using hWF
  obtain ⟨hH, hC⟩ := hparts
  cases hdrop : st.code.drop st.ip with
  | nil =>
    rw [hdrop, heightsOk.eq_def] at hH
    exact absurd hH (by simp)
  | cons e tl =>
  rw [hdrop] at hH
  have hget : listGet? st.code st.ip = some e := by
    rw [listGet?_drop, hdrop]
    rfl
  have hdrop1 : st.code.drop (st.ip + 1) = tl := by
    rw [drop_succ_tail, hdrop]
    rfl
  cases e with
  | Constant k =>
    rw [heightsOk.eq_def] at hH
    exact absurd hH (by simp)
  | Code op =>
  cases op with
  | OpReturn =>
    rw [heightsOk_ret] at hH
    have hz : st.stack = [] := by
      simp only [decide_eq_true_eq] at hH
      exact List.length_eq_zero.mp hH
    exact stepSafe_ret st (by simp only [step, hget]) hz
  | OpSubtract =>
    rw [heightsOk_simple st.constants st.interner .OpSubtract tl st.stack.length
      (by decide) rfl] at hH
    simp only [Bool.and_eq_true, decide_eq_true_eq, opNeeds, opPops, opPushes] at hH
    obtain ⟨hneed, hcap2, hrec⟩ := hH
    obtain ⟨b, a, rest, hs⟩ := length_two_split st.stack hneed
    have hlen : st.stack.length = rest.length + 2 := by rw [hs]; simp
    rw [hlen, Nat.add_sub_cancel] at hcap2 hrec
    cases hv : valueSub a b with
    | error m => exact stepSafe_err st m (by simp only [step, hget, hs, hv])
    | ok v =>
      have hlt : rest.length < STACK_MAX :=
        Nat.lt_of_lt_of_le (Nat.lt_succ_self _) hcap2
      refine stepSafe_next st { st with ip := st.ip + 1, stack := v :: rest } none
        (by simp only [step, hget, hs, hv, hlt, if_true]) ?_
      refine stateWF_of _ ?_ ?_
      · show heightsOk st.constants st.interner (st.code.drop (st.ip + 1))
          (v :: rest).length = true
        rw [hdrop1]
        simpa using hrec
      · show (v :: rest).length ≤ STACK_MAX
        simpa using hcap2
  | OpMultiply =>
    rw [heightsOk_simple st.constants st.interner .OpMultiply tl st.stack.length
      (by decide) rfl] at hH
    simp only [Bool.and_eq_true, decide_eq_true_eq, opNeeds, opPops, opPushes] at hH
    obtain ⟨hneed, hcap2, hrec⟩ := hH
    obtain ⟨b, a, rest, hs⟩ := length_two_split st.stack hneed
    have hlen : st.stack.length = rest.length + 2 := by rw [hs]; simp
    rw [hlen, Nat.add_sub_cancel] at hcap2 hrec
    cases hv : valueMul a b with
    | error m => exact stepSafe_err st m (by simp only [step, hget, hs, hv])
    | ok v =>
      have hlt : rest.length < STACK_MAX :=
        Nat.lt_of_lt_of_le (Nat.lt_succ_self _) hcap2
      refine stepSafe_next st { st with ip := st.ip + 1, stack := v :: rest } none
        (by simp only [step, hget, hs, hv, hlt, if_true]) ?_
      refine stateWF_of _ ?_ ?_
      · show heightsOk st.constants st.interner (st.code.drop (st.ip + 1))
          (v :: rest).length = true
        rw [hdrop1]
        simpa using hrec
      · show (v :: rest).length ≤ STACK_MAX
        simpa using hcap2
  | OpDivide =>
    rw [heightsOk_simple st.constants st.interner .OpDivide tl st.stack.length
      (by decide) rfl] at hH
    simp only [Bool.and_eq_true, decide_eq_true_eq, opNeeds, opPops, opPushes] at hH
    obtain ⟨hneed, hcap2, hrec⟩ := hH
    obtain ⟨b, a, rest, hs⟩ := length_two_split st.stack hneed
    have hlen : st.stack.length = rest.length + 2 := by rw [hs]; simp
    rw [hlen, Nat.add_sub_cancel] at hcap2 hrec
    cases hv : valueDiv a b with
    | error m => exact stepSafe_err st m (by simp only [step, hget, hs, hv])
    | ok v =>
      have hlt : rest.length < STACK_MAX :=
        Nat.lt_of_lt_of_le (Nat.lt_succ_self _) hcap2
      refine stepSafe_next st { st with ip := st.ip + 1, stack := v :: rest } none
        (by simp only [step, hget, hs, hv, hlt, if_true]) ?_
      refine stateWF_of _ ?_ ?_
      · show heightsOk st.constants st.interner (st.code.drop (st.ip + 1))
          (v :: rest).length = true
        rw [hdrop1]
        simpa using hrec
      · show (v :: rest).length ≤ STACK_MAX
        simpa using hcap2
  | OpPower =>
    rw [heightsOk_simple st.constants st.interner .OpPower tl st.stack.length
      (by decide) rfl] at hH
    simp only [Bool.and_eq_true, decide_eq_true_eq, opNeeds, opPops, opPushes] at hH
    obtain ⟨hneed, hcap2, hrec⟩ := hH
    obtain ⟨b, a, rest, hs⟩ := length_two_split st.stack hneed
    have hlen : st.stack.length = rest.length + 2 := by rw [hs]; simp
    rw [hlen, Nat.add_sub_cancel] at hcap2 hrec
    cases hv : valuePow a b with
    | error m => exact stepSafe_err st m (by simp only [step, hget, hs, hv])
    | ok v =>
      have hlt : rest.length < STACK_MAX :=
        Nat.lt_of_lt_of_le (Nat.lt_succ_self _) hcap2
      refine stepSafe_next st { st with ip := st.ip + 1, stack := v :: rest } none
        (by simp only [step, hget, hs, hv, hlt, if_true]) ?_
      refine stateWF_of _ ?_ ?_
      · show heightsOk st.constants st.interner (st.code.drop (st.ip + 1))
          (v :: rest).length = true
        rw [hdrop1]
        simpa using hrec
      · show (v :: rest).length ≤ STACK_MAX
        simpa using hcap2
  | OpGreater =>
    rw [heightsOk_simple st.constants st.interner .OpGreater tl st.stack.length
      (by decide) rfl] at hH
    simp only [Bool.and_eq_true, decide_eq_true_eq, opNeeds, opPops, opPushes] at hH
    obtain ⟨hneed, hcap2, hrec⟩ := hH
    obtain ⟨b, a, rest, hs⟩ := length_two_split st.stack hneed
    have hlen : st.stack.length = rest.length + 2 := by rw [hs]; simp
    rw [hlen, Nat.add_sub_cancel] at hcap2 hrec
    cases hv : valueGreater a b with
    | error m => exact stepSafe_err st m (by simp only [step, hget, hs, hv])
    | ok v =>
      have hlt : rest.length < STACK_MAX :=
        Nat.lt_of_lt_of_le (Nat.lt_succ_self _) hcap2
      refine stepSafe_next st { st with ip := st.ip + 1, stack := .Boolean v :: rest } none
        (by simp only [step, hget, hs, hv, hlt, if_true]) ?_
      refine stateWF_of _ ?_ ?_
      · show heightsOk st.constants st.interner (st.code.drop (st.ip + 1))
          (ValueType.Boolean v :: rest).length = true
        rw [hdrop1]
        simpa using hrec
      · show (ValueType.Boolean v :: rest).length ≤ STACK_MAX
        simpa using hcap2
  | OpLess =>
    rw [heightsOk_simple st.constants st.interner .OpLess tl st.stack.length
      (by decide) rfl] at hH
    simp only [Bool.and_eq_true, decide_eq_true_eq, opNeeds, opPops, opPushes] at hH
    obtain ⟨hneed, hcap2, hrec⟩ := hH
    obtain ⟨b, a, rest, hs⟩ := length_two_split st.stack hneed
    have hlen : st.stack.length = rest.length + 2 := by rw [hs]; simp
    rw [hlen, Nat.add_sub_cancel] at hcap2 hrec
    cases hv : valueLess a b with
    | error m => exact stepSafe_err st m (by simp only [step, hget, hs, hv])
    | ok v =>
      have hlt : rest.length < STACK_MAX :=
        Nat.lt_of_lt_of_le (Nat.lt_succ_self _) hcap2
      refine stepSafe_next st { st with ip := st.ip + 1, stack := .Boolean v :: rest } none
        (by simp only [step, hget, hs, hv, hlt, if_true]) ?_
      refine stateWF_of _ ?_ ?_
      · show heightsOk st.constants st.interner (st.code.drop (st.ip + 1))
          (ValueType.Boolean v :: rest).length = true
        rw [hdrop1]
        simpa using hrec
      · show (ValueType.Boolean v :: rest).length ≤ STACK_MAX
        simpa using hcap2
  | OpEqualEqual =>
    rw [heightsOk_simple st.constants st.interner .OpEqualEqual tl st.stack.length
      (by decide) rfl] at hH
    simp only [Bool.and_eq_true, decide_eq_true_eq, opNeeds, opPops, opPushes] at hH
    obtain ⟨hneed, hcap2, hrec⟩ := hH
    obtain ⟨b, a, rest, hs⟩ := length_two_split st.stack hneed
    have hlen : st.stack.length = rest.length + 2 := by rw [hs]; simp
    rw [hlen, Nat.add_sub_cancel] at hcap2 hrec
    have hlt : rest.length < STACK_MAX :=
      Nat.lt_of_lt_of_le (Nat.lt_succ_self _) hcap2
    refine stepSafe_next st
      { st with ip := st.ip + 1, stack := .Boolean (decide (a = b)) :: rest } none
      (by simp only [step, hget, hs, hlt, if_true]) ?_
    refine stateWF_of _ ?_ ?_
    · show heightsOk st.constants st.interner (st.code.drop (st.ip + 1))
        (ValueType.Boolean (decide (a = b)) :: rest).length = true
      rw [hdrop1]
      simpa using hrec
    · show (ValueType.Boolean (decide (a = b)) :: rest).length ≤ STACK_MAX
      simpa using hcap2
  | OpNegate =>
    rw [heightsOk_simple st.constants st.interner .OpNegate tl st.stack.length
      (by decide) rfl] at hH
    simp only [Bool.and_eq_true, decide_eq_true_eq, opNeeds, opPops, opPushes] at hH
    obtain ⟨hneed, hcap2, hrec⟩ := hH
    obtain ⟨v, rest, hs⟩ := length_one_split st.stack hneed
    have hlen : st.stack.length = rest.length + 1 := by rw [hs]; simp
    rw [hlen, Nat.add_sub_cancel] at hcap2 hrec
    cases hv : valueNegate v with
    | error m => exact stepSafe_err st m (by simp only [step, hget, hs, hv])
    | ok v2 =>
      have hlt : rest.length < STACK_MAX :=
        Nat.lt_of_lt_of_le (Nat.lt_succ_self _) hcap2
      refine stepSafe_next st { st with ip := st.ip + 1, stack := v2 :: rest } none
        (by simp only [step, hget, hs, hv, hlt, if_true]) ?_
      refine stateWF_of _ ?_ ?_
      · show heightsOk st.constants st.interner (st.code.drop (st.ip + 1))
          (v2 :: rest).length = true
        rw [hdrop1]
        simpa using hrec
      · show (v2 :: rest).length ≤ STACK_MAX
        simpa using hcap2
  | OpNot =>
    rw [heightsOk_simple st.constants st.interner .OpNot tl st.stack.length
      (by decide) rfl] at hH
    simp only [Bool.and_eq_true, decide_eq_true_eq, opNeeds, opPops, opPushes] at hH
    obtain ⟨hneed, hcap2, hrec⟩ := hH
    obtain ⟨v, rest, hs⟩ := length_one_split st.stack hneed
    have hlen : st.stack.length = rest.length + 1 := by rw [hs]; simp
    rw [hlen, Nat.add_sub_cancel] at hcap2 hrec
    have hlt : rest.length < STACK_MAX :=
      Nat.lt_of_lt_of_le (Nat.lt_succ_self _) hcap2
    refine stepSafe_next st { st with ip := st.ip + 1, stack := valueNot v :: rest } none
      (by simp only [step, hget, hs, hlt, if_true]) ?_
    refine stateWF_of _ ?_ ?_
    · show heightsOk st.constants st.interner (st.code.drop (st.ip + 1))
        (valueNot v :: rest).length = true
      rw [hdrop1]
      simpa using hrec
    · show (valueNot v :: rest).length ≤ STACK_MAX
      simpa using hcap2
  | OpNil =>
    rw [heightsOk_simple st.constants st.interner .OpNil tl st.stack.length
      (by decide) rfl] at hH
    simp only [Bool.and_eq_true, decide_eq_true_eq, opNeeds, opPops, opPushes,
      Nat.sub_zero] at hH
    obtain ⟨hneed, hcap2, hrec⟩ := hH
    have hlt : st.stack.length < STACK_MAX :=
      Nat.lt_of_lt_of_le (Nat.lt_succ_self _) hcap2
    refine stepSafe_next st { st with ip := st.ip + 1, stack := .Nil :: st.stack } none
      (by simp only [step, hget, hlt, if_true]) ?_
    refine stateWF_of _ ?_ ?_
    · show heightsOk st.constants st.interner (st.code.drop (st.ip + 1))
        (.Nil :: st.stack).length = true
      rw [hdrop1]
      simpa using hrec
    · show (.Nil :: st.stack).length ≤ STACK_MAX
      simpa using hcap2
  | OpTrue =>
    rw [heightsOk_simple st.constants st.interner .OpTrue tl st.stack.length
      (by decide) rfl] at hH
    simp only [Bool.and_eq_true, decide_eq_true_eq, opNeeds, opPops, opPushes,
      Nat.sub_zero] at hH
    obtain ⟨hneed, hcap2, hrec⟩ := hH
    have hlt : st.stack.length < STACK_MAX :=
      Nat.lt_of_lt_of_le (Nat.lt_succ_self _) hcap2
    refine stepSafe_next st { st with ip := st.ip + 1, stack := .Boolean true :: st.stack } none
      (by simp only [step, hget, hlt, if_true]) ?_
    refine stateWF_of _ ?_ ?_
    · show heightsOk st.constants st.interner (st.code.drop (st.ip + 1))
        (.Boolean true :: st.stack).length = true
      rw [hdrop1]
      simpa using hrec
    · show (.Boolean true :: st.stack).length ≤ STACK_MAX
      simpa using hcap2
  | OpFalse =>
    rw [heightsOk_simple st.constants st.interner .OpFalse tl st.stack.length
      (by decide) rfl] at hH
    simp only [Bool.and_eq_true, decide_eq_true_eq, opNeeds, opPops, opPushes,
      Nat.sub_zero] at hH
    obtain ⟨hneed, hcap2, hrec⟩ := hH
    have hlt : st.stack.length < STACK_MAX :=
      Nat.lt_of_lt_of_le (Nat.lt_succ_self _) hcap2
    refine stepSafe_next st { st with ip := st.ip + 1, stack := .Boolean false :: st.stack } none
      (by simp only [step, hget, hlt, if_true]) ?_
    refine stateWF_of _ ?_ ?_
    · show heightsOk st.constants st.interner (st.code.drop (st.ip + 1))
        (.Boolean false :: st.stack).length = true
      rw [hdrop1]
      simpa using hrec
    · show (.Boolean false :: st.stack).length ≤ STACK_MAX
      simpa using hcap2
  | OpPrint =>
    rw [heightsOk_simple st.constants st.interner .OpPrint tl st.stack.length
      (by decide) rfl] at hH
    simp only [Bool.and_eq_true, decide_eq_true_eq, opNeeds, opPops, opPushes] at hH
    obtain ⟨hneed, hcap2, hrec⟩ := hH
    obtain ⟨v, rest, hs⟩ := length_one_split st.stack hneed
    have hlen : st.stack.length = rest.length + 1 := by rw [hs]; simp
    rw [hlen] at hcap2 hrec
    simp only [Nat.add_sub_cancel, Nat.add_zero] at hcap2 hrec
    refine stepSafe_next st { st with ip := st.ip + 1, stack := rest } (some v)
      (by simp only [step, hget, hs]) ?_
    refine stateWF_of _ ?_ ?_
    · show heightsOk st.constants st.interner (st.code.drop (st.ip + 1))
        rest.length = true
      rw [hdrop1]
      exact hrec
    · show rest.length ≤ STACK_MAX
      exact hcap2
  | OpPop =>
    rw [heightsOk_simple st.constants st.interner .OpPop tl st.stack.length
      (by decide) rfl] at hH
    simp only [Bool.and_eq_true, decide_eq_true_eq, opNeeds, opPops, opPushes] at hH
    obtain ⟨hneed, hcap2, hrec⟩ := hH
    obtain ⟨v, rest, hs⟩ := length_one_split st.stack hneed
    have hlen : st.stack.length = rest.length + 1 := by rw [hs]; simp
    rw [hlen] at hcap2 hrec
    simp only [Nat.add_sub_cancel, Nat.add_zero] at hcap2 hrec
    refine stepSafe_next st { st with ip := st.ip + 1, stack := rest } none
      (by simp only [step, hget, hs]) ?_
    refine stateWF_of _ ?_ ?_
    · show heightsOk st.constants st.interner (st.code.drop (st.ip + 1))
        rest.length = true
      rw [hdrop1]
      exact hrec
    · show rest.length ≤ STACK_MAX
      exact hcap2
  | OpAdd =>
    rw [heightsOk_simple st.constants st.interner .OpAdd tl st.stack.length
      (by decide) rfl] at hH
    simp only [Bool.and_eq_true, decide_eq_true_eq, opNeeds, opPops, opPushes] at hH
    obtain ⟨hneed, hcap2, hrec⟩ := hH
    obtain ⟨b, a, rest, hs⟩ := length_two_split st.stack hneed
    have hlen : st.stack.length = rest.length + 2 := by rw [hs]; simp
    rw [hlen, Nat.add_sub_cancel] at hcap2 hrec
    cases b with
    | String bs =>
      have hmix2 : isStringV a = true := by
        have hmm := hmix
        unfold mixedAddAt at hmm
        rw [hget, hs] at hmm
        simpa using hmm
      cases a with
      | String as =>
        have hlt : rest.length < STACK_MAX :=
          Nat.lt_of_lt_of_le (Nat.lt_succ_self _) hcap2
        obtain ⟨ext, hext⟩ := internString_snd_extend st.interner
          (lookupString st.interner as ++ lookupString st.interner bs)
        refine stepSafe_next st
          { st with
            ip := st.ip + 1
            stack := .String (internString st.interner
              (lookupString st.interner as ++ lookupString st.interner bs)).1 :: rest
            interner := (internString st.interner
              (lookupString st.interner as ++ lookupString st.interner bs)).2 } none
          (by simp only [step, hget, hs, hlt, if_true]) ?_
        refine stateWF_of _ ?_ ?_
        · show heightsOk st.constants
            (internString st.interner
              (lookupString st.interner as ++ lookupString st.interner bs)).2
            (st.code.drop (st.ip + 1))
            (ValueType.String (internString st.interner
              (lookupString st.interner as ++ lookupString st.interner bs)).1
              :: rest).length = true
          rw [hdrop1, hext]
          have hrec2 : heightsOk st.constants st.interner tl (rest.length + 1) = true := by
            simpa using hrec
          simpa using heightsOk_extend st.constants st.interner ext tl.length tl
            (rest.length + 1) le_rfl hrec2
        · show (ValueType.String (internString st.interner
              (lookupString st.interner as ++ lookupString st.interner bs)).1
              :: rest).length ≤ STACK_MAX
          simpa using hcap2
      | Nil => simp [isStringV] at hmix2
      | Boolean x => simp [isStringV] at hmix2
      | Number x => simp [isStringV] at hmix2
      | Identifier x => simp [isStringV] at hmix2
      | Tensor x => simp [isStringV] at hmix2
    | Nil =>
      cases hv : valueAdd a (.Nil) with
      | error m => exact stepSafe_err st m (by simp only [step, hget, hs, hv])
      | ok v =>
        have hlt : rest.length < STACK_MAX :=
          Nat.lt_of_lt_of_le (Nat.lt_succ_self _) hcap2
        refine stepSafe_next st { st with ip := st.ip + 1, stack := v :: rest } none
          (by simp only [step, hget, hs, hv, hlt, if_true]) ?_
        refine stateWF_of _ ?_ ?_
        · show heightsOk st.constants st.interner (st.code.drop (st.ip + 1))
            (v :: rest).length = true
          rw [hdrop1]
          simpa using hrec
        · show (v :: rest).length ≤ STACK_MAX
          simpa using hcap2
    | Boolean bx =>
      cases hv : valueAdd a (.Boolean bx) with
      | error m => exact stepSafe_err st m (by simp only [step, hget, hs, hv])
      | ok v =>
        have hlt : rest.length < STACK_MAX :=
          Nat.lt_of_lt_of_le (Nat.lt_succ_self _) hcap2
        refine stepSafe_next st { st with ip := st.ip + 1, stack := v :: rest } none
          (by simp only [step, hget, hs, hv, hlt, if_true]) ?_
        refine stateWF_of _ ?_ ?_
        · show heightsOk st.constants st.interner (st.code.drop (st.ip + 1))
            (v :: rest).length = true
          rw [hdrop1]
          simpa using hrec
        · show (v :: rest).length ≤ STACK_MAX
          simpa using hcap2
    | Number bx =>
      cases hv : valueAdd a (.Number bx) with
      | error m => exact stepSafe_err st m (by simp only [step, hget, hs, hv])
      | ok v =>
        have hlt : rest.length < STACK_MAX :=
          Nat.lt_of_lt_of_le (Nat.lt_succ_self _) hcap2
        refine stepSafe_next st { st with ip := st.ip + 1, stack := v :: rest } none
          (by simp only [step, hget, hs, hv, hlt, if_true]) ?_
        refine stateWF_of _ ?_ ?_
        · show heightsOk st.constants st.interner (st.code.drop (st.ip + 1))
            (v :: rest).length = true
          rw [hdrop1]
          simpa using hrec
        · show (v :: rest).length ≤ STACK_MAX
          simpa using hcap2
    | Identifier bx =>
      cases hv : valueAdd a (.Identifier bx) with
      | error m => exact stepSafe_err st m (by simp only [step, hget, hs, hv])
      | ok v =>
        have hlt : rest.length < STACK_MAX :=
          Nat.lt_of_lt_of_le (Nat.lt_succ_self _) hcap2
        refine stepSafe_next st { st with ip := st.ip + 1, stack := v :: rest } none
          (by simp only [step, hget, hs, hv, hlt, if_true]) ?_
        refine stateWF_of _ ?_ ?_
        · show heightsOk st.constants st.interner (st.code.drop (st.ip + 1))
            (v :: rest).length = true
          rw [hdrop1]
          simpa using hrec
        · show (v :: rest).length ≤ STACK_MAX
          simpa using hcap2
    | Tensor bx =>
      cases hv : valueAdd a (.Tensor bx) with
      | error m => exact stepSafe_err st m (by simp only [step, hget, hs, hv])
      | ok v =>
        have hlt : rest.length < STACK_MAX :=
          Nat.lt_of_lt_of_le (Nat.lt_succ_self _) hcap2
        refine stepSafe_next st { st with ip := st.ip + 1, stack := v :: rest } none
          (by simp only [step, hget, hs, hv, hlt, if_true]) ?_
        refine stateWF_of _ ?_ ?_
        · show heightsOk st.constants st.interner (st.code.drop (st.ip + 1))
            (v :: rest).length = true
          rw [hdrop1]
          simpa using hrec
        · show (v :: rest).length ≤ STACK_MAX
          simpa using hcap2
  | OpConstant =>
    obtain ⟨hneed, idx, c, tl2, htl, hk, hok, hcap2, hrec⟩ :=
      heightsOk_operand_elim st.constants st.interner .OpConstant tl st.stack.length
        (by decide) rfl hH
    subst htl
    have hget2 : listGet? st.code (st.ip + 1) = some (.Constant idx) := by
      rw [listGet?_drop, hdrop1]
      rfl
    have hdrop2 : st.code.drop (st.ip + 2) = tl2 := by
      rw [show st.ip + 2 = st.ip + 1 + 1 from rfl, drop_succ_tail, hdrop1]
      rfl
    rw [show opPushesOperand st.interner .OpConstant c = 1 from rfl,
      show opPops .OpConstant = 0 from rfl, Nat.sub_zero] at hcap2 hrec
    have hlt : st.stack.length < STACK_MAX :=
      Nat.lt_of_lt_of_le (Nat.lt_succ_self _) hcap2
    refine stepSafe_next st { st with ip := st.ip + 2, stack := c :: st.stack } none
      (by simp only [step, hget, hget2, hk, hlt, if_true]) ?_
    refine stateWF_of _ ?_ ?_
    · show heightsOk st.constants st.interner (st.code.drop (st.ip + 2))
        (c :: st.stack).length = true
      rw [hdrop2]
      simpa using hrec
    · show (c :: st.stack).length ≤ STACK_MAX
      simpa using hcap2
  | OpDefineGlobal =>
    obtain ⟨hneed, idx, c, tl2, htl, hk, hok, hcap2, hrec⟩ :=
      heightsOk_operand_elim st.constants st.interner .OpDefineGlobal tl st.stack.length
        (by decide) rfl hH
    subst htl
    have hget2 : listGet? st.code (st.ip + 1) = some (.Constant idx) := by
      rw [listGet?_drop, hdrop1]
      rfl
    have hdrop2 : st.code.drop (st.ip + 2) = tl2 := by
      rw [show st.ip + 2 = st.ip + 1 + 1 from rfl, drop_succ_tail, hdrop1]
      rfl
    cases c with
    | Identifier k =>
      rw [show opPushesOperand st.interner .OpDefineGlobal (.Identifier k) = 0 from rfl,
        show opPops .OpDefineGlobal = 1 from rfl, Nat.add_zero] at hcap2 hrec
      obtain ⟨v, rest, hs⟩ := length_one_split st.stack hneed
      have hlen : st.stack.length = rest.length + 1 := by rw [hs]; simp
      rw [hlen, Nat.add_sub_cancel] at hcap2 hrec
      refine stepSafe_next st
        { st with
          ip := st.ip + 2
          stack := rest
          globals := globalsInsert st.globals k v } none
        (by simp only [step, hget, hget2, hk, hs]) ?_
      refine stateWF_of _ ?_ ?_
      · show heightsOk st.constants st.interner (st.code.drop (st.ip + 2))
          rest.length = true
        rw [hdrop2]
        exact hrec
      · show rest.length ≤ STACK_MAX
        exact hcap2
    | Nil => simp [operandOk] at hok
    | Boolean x => simp [operandOk] at hok
    | Number x => simp [operandOk] at hok
    | String x => simp [operandOk] at hok
    | Tensor x => simp [operandOk] at hok
  | OpGetGlobal =>
    obtain ⟨hneed, idx, c, tl2, htl, hk, hok, hcap2, hrec⟩ :=
      heightsOk_operand_elim st.constants st.interner .OpGetGlobal tl st.stack.length
        (by decide) rfl hH
    subst htl
    have hget2 : listGet? st.code (st.ip + 1) = some (.Constant idx) := by
      rw [listGet?_drop, hdrop1]
      rfl
    have hdrop2 : st.code.drop (st.ip + 2) = tl2 := by
      rw [show st.ip + 2 = st.ip + 1 + 1 from rfl, drop_succ_tail, hdrop1]
      rfl
    cases c with
    | Identifier k =>
      rw [show opPushesOperand st.interner .OpGetGlobal (.Identifier k) = 1 from rfl,
        show opPops .OpGetGlobal = 0 from rfl, Nat.sub_zero] at hcap2 hrec
      cases hg : globalsGet st.globals k with
      | none =>
        exact stepSafe_err st ("Undefined global variable")
          (by simp only [step, hget, hget2, hk, hg])
      | some v =>
        have hlt : st.stack.length < STACK_MAX :=
          Nat.lt_of_lt_of_le (Nat.lt_succ_self _) hcap2
        refine stepSafe_next st { st with ip := st.ip + 2, stack := v :: st.stack } none
          (by simp only [step, hget, hget2, hk, hg, hlt, if_true]) ?_
        refine stateWF_of _ ?_ ?_
        · show heightsOk st.constants st.interner (st.code.drop (st.ip + 2))
            (v :: st.stack).length = true
          rw [hdrop2]
          simpa using hrec
        · show (v :: st.stack).length ≤ STACK_MAX
          simpa using hcap2
    | Nil => simp [operandOk] at hok
    | Boolean x => simp [operandOk] at hok
    | Number x => simp [operandOk] at hok
    | String x => simp [operandOk] at hok
    | Tensor x => simp [operandOk] at hok
  | OpSetGlobal =>
    obtain ⟨hneed, idx, c, tl2, htl, hk, hok, hcap2, hrec⟩ :=
      heightsOk_operand_elim st.constants st.interner .OpSetGlobal tl st.stack.length
        (by decide) rfl hH
    subst htl
    have hget2 : listGet? st.code (st.ip + 1) = some (.Constant idx) := by
      rw [listGet?_drop, hdrop1]
      rfl
    have hdrop2 : st.code.drop (st.ip + 2) = tl2 := by
      rw [show st.ip + 2 = st.ip + 1 + 1 from rfl, drop_succ_tail, hdrop1]
      rfl
    cases c with
    | Identifier k =>
      rw [show opPushesOperand st.interner .OpSetGlobal (.Identifier k) = 0 from rfl,
        show opPops .OpSetGlobal = 0 from rfl, Nat.sub_zero, Nat.add_zero] at hcap2 hrec
      obtain ⟨v, rest, hs⟩ := length_one_split st.stack hneed
      refine stepSafe_next st
        { st with ip := st.ip + 2, globals := globalsInsert st.globals k v } none
        (by simp only [step, hget, hget2, hk, hs]) ?_
      refine stateWF_of _ ?_ ?_
      · show heightsOk st.constants st.interner (st.code.drop (st.ip + 2))
          st.stack.length = true
        rw [hdrop2]
        exact hrec
      · show st.stack.length ≤ STACK_MAX
        exact hC
    | Nil => simp [operandOk] at hok
    | Boolean x => simp [operandOk] at hok
    | Number x => simp [operandOk] at hok
    | String x => simp [operandOk] at hok
    | Tensor x => simp [operandOk] at hok
  | OpCall =>
    obtain ⟨hneed, idx, c, tl2, htl, hk, hok, hcap2, hrec⟩ :=
      heightsOk_operand_elim st.constants st.interner .OpCall tl st.stack.length
        (by decide) rfl hH
    subst htl
    have hget2 : listGet? st.code (st.ip + 1) = some (.Constant idx) := by
      rw [listGet?_drop, hdrop1]
      rfl
    have hdrop2 : st.code.drop (st.ip + 2) = tl2 := by
      rw [show st.ip + 2 = st.ip + 1 + 1 from rfl, drop_succ_tail, hdrop1]
      rfl
    cases c with
    | Identifier s =>
      obtain ⟨caller, rest, hs⟩ := length_one_split st.stack hneed
      have hlen : st.stack.length = rest.length + 1 := by rw [hs]; simp
      cases caller with
      | Tensor t =>
        by_cases hname1 : lookupString st.interner s = "relu"
        · have hpush : opPushesOperand st.interner .OpCall (.Identifier s) = 1 := by
            simp [opPushesOperand, hname1]
          rw [hpush, show opPops .OpCall = 1 from rfl, hlen, Nat.add_sub_cancel]
            at hcap2 hrec
          have hlt : rest.length < STACK_MAX :=
            Nat.lt_of_lt_of_le (Nat.lt_succ_self _) hcap2
          refine stepSafe_next st
            { st with
              ip := st.ip + 2
              stack := .Tensor st.tensors.length :: rest
              tensors := st.tensors ++ [reluNode st.tensors t] } none
            (by simp only [step, hget, hget2, hk, hs, hname1, if_true, hlt]) ?_
          refine stateWF_of _ ?_ ?_
          · show heightsOk st.constants st.interner (st.code.drop (st.ip + 2))
              (ValueType.Tensor st.tensors.length :: rest).length = true
            rw [hdrop2]
            simpa using hrec
          · show (ValueType.Tensor st.tensors.length :: rest).length ≤ STACK_MAX
            simpa using hcap2
        · by_cases hname2 : lookupString st.interner s = "backward"
          · have hpush : opPushesOperand st.interner .OpCall (.Identifier s) = 0 := by
              simp [opPushesOperand, hname2]
            rw [hpush, show opPops .OpCall = 1 from rfl, hlen] at hcap2 hrec
            simp only [Nat.add_sub_cancel, Nat.add_zero] at hcap2 hrec
            refine stepSafe_next st
              { st with
                ip := st.ip + 2
                stack := rest
                tensors := backwardPass st.tensors t } none
              (by simp only [step, hget, hget2, hk, hs, hname2, if_true]
                  rw [if_neg (by decide)]) ?_
            refine stateWF_of _ ?_ ?_
            · show heightsOk st.constants st.interner (st.code.drop (st.ip + 2))
                rest.length = true
              rw [hdrop2]
              exact hrec
            · show rest.length ≤ STACK_MAX
              exact hcap2
          · by_cases hname3 : lookupString st.interner s = "grad"
            · have hpush : opPushesOperand st.interner .OpCall (.Identifier s) = 1 := by
                simp [opPushesOperand, hname3]
              rw [hpush, show opPops .OpCall = 1 from rfl, hlen, Nat.add_sub_cancel]
                at hcap2 hrec
              have hlt : rest.length < STACK_MAX :=
                Nat.lt_of_lt_of_le (Nat.lt_succ_self _) hcap2
              refine stepSafe_next st
                { st with
                  ip := st.ip + 2
                  stack := .Tensor st.tensors.length :: rest
                  tensors := st.tensors ++ [gradNode st.tensors t] } none
                (by simp only [step, hget, hget2, hk, hs, hname3, hlt, if_true]
                    rw [if_neg (by decide), if_neg (by decide)]) ?_
              refine stateWF_of _ ?_ ?_
              · show heightsOk st.constants st.interner (st.code.drop (st.ip + 2))
                  (ValueType.Tensor st.tensors.length :: rest).length = true
                rw [hdrop2]
                simpa using hrec
              · show (ValueType.Tensor st.tensors.length :: rest).length ≤ STACK_MAX
                simpa using hcap2
            · exact stepSafe_err st
                ("Undefined function. Currently only supports relu, backward and grad")
                (by simp only [step, hget, hget2, hk, hs, hname1, hname2, hname3,
                  if_false])
      | Nil =>
        exact stepSafe_err st ("Invalid function")
          (by simp only [step, hget, hget2, hk, hs])
      | Boolean x =>
        exact stepSafe_err st ("Invalid function")
          (by simp only [step, hget, hget2, hk, hs])
      | Number x =>
        exact stepSafe_err st ("Invalid function")
          (by simp only [step, hget, hget2, hk, hs])
      | String x =>
        exact stepSafe_err st ("Invalid function")
          (by simp only [step, hget, hget2, hk, hs])
      | Identifier x =>
        exact stepSafe_err st ("Invalid function")
          (by simp only [step, hget, hget2, hk, hs])
    | Nil => simp [operandOk] at hok
    | Boolean x => simp [operandOk] at hok
    | Number x => simp [operandOk] at hok
    | String x => simp [operandOk] at hok
    | Tensor x => simp [operandOk] at hok

/-- What a mixed OpAdd configuration consists of. -/
lemma mixedAddAt_elim (st : VMState) (hm : mixedAddAt st = true) :
    listGet? st.code st.ip = some (.Code .OpAdd) ∧
    ∃ b a rest, st.stack = .String b :: a :: rest ∧ isStringV a = false := by
  unfold mixedAddAt at hm
  rw [Bool.and_eq_true] at hm
  obtain ⟨h1, h2⟩ := hm
  refine ⟨by simpa using h1, ?_⟩
  cases hs : st.stack with
  | nil => rw [hs] at h2; simp at h2
  | cons b rest1 =>
    cases b with
    | String bs =>
      cases rest1 with
      | nil => rw [hs] at h2; simp at h2
      | cons a rest =>
        rw [hs] at h2
        exact ⟨bs, a, rest, rfl, by simpa using h2⟩
    | Nil => rw [hs] at h2; simp at h2
    | Boolean x => rw [hs] at h2; simp at h2
    | Number x => rw [hs] at h2; simp at h2
    | Identifier x => rw [hs] at h2; simp at h2
    | Tensor x => rw [hs] at h2; simp at h2

/-- A returning step from a well-formed state happens on an empty
stack. -/
lemma step_ret_empty (st : VMState) (hWF : stateWF st = true)
    (hret : step st = .ret) : st.stack = [] := by
  by_cases hm : mixedAddAt st = false
  · exact (step_preserve st hWF hm).2.1 hret
  · have hm2 : mixedAddAt st = true := by
      cases hq : mixedAddAt st
      · exact absurd hq hm
      · rfl
    obtain ⟨hi, b, a, rest, hs, ha⟩ := mixedAddAt_elim st hm2
    exfalso
    cases a with
    | String i => simp [isStringV] at ha
    | Nil =>
      rw [show step st = .next { st with ip := st.ip + 1, stack := rest } none from
        by simp only [step, hi, hs]] at hret
      exact absurd hret (by simp)
    | Boolean x =>
      rw [show step st = .next { st with ip := st.ip + 1, stack := rest } none from
        by simp only [step, hi, hs]] at hret
      exact absurd hret (by simp)
    | Number x =>
      rw [show step st = .next { st with ip := st.ip + 1, stack := rest } none from
        by simp only [step, hi, hs]] at hret
      exact absurd hret (by simp)
    | Identifier x =>
      rw [show step st = .next { st with ip := st.ip + 1, stack := rest } none from
        by simp only [step, hi, hs]] at hret
      exact absurd hret (by simp)
    | Tensor x =>
      rw [show step st = .next { st with ip := st.ip + 1, stack := rest } none from
        by simp only [step, hi, hs]] at hret
      exact absurd hret (by simp)

/-- Every continuation of a step from a well-formed state respects the
stack capacity, the mixed OpAdd configuration included (it only shrinks
the stack). -/
lemma step_next_cap (st : VMState) (hWF : stateWF st = true) :
    ∀ st2 p, step st = .next st2 p → st2.stack.length ≤ STACK_MAX := by
  intro st2 p hn
  by_cases hm : mixedAddAt st = false
  · have h2 := (step_preserve st hWF hm).2.2 st2 p hn
    have : heightsOk st2.constants st2.interner (st2.code.drop st2.ip)
        st2.stack.length = true ∧ st2.stack.length ≤ STACK_MAX := by
      simpa [stateWF, Bool.and_eq_true] using h2
    exact this.2
  · have hm2 : mixedAddAt st = true := by
      cases hq : mixedAddAt st
      · exact absurd hq hm
      · rfl
    obtain ⟨hi, b, a, rest, hs, ha⟩ := mixedAddAt_elim st hm2
    have hC : st.stack.length ≤ STACK_MAX := by
      have := hWF
      simp only [stateWF, Bool.and_eq_true, decide_eq_true_eq] at this
      exact this.2
    have hrest : rest.length ≤ STACK_MAX := by
      rw [hs] at hC
      simp only [List.length_cons] at hC
      exact Nat.le_of_succ_le (Nat.le_of_succ_le_succ (Nat.le_succ_of_le hC))
    cases a with
    | String i => simp [isStringV] at ha
    | Nil =>
      rw [show step st = .next { st with ip := st.ip + 1, stack := rest } none from
        by simp only [step, hi, hs]] at hn
      injection hn with h1 h2
      rw [← h1]
      exact hrest
    | Boolean x =>
      rw [show step st = .next { st with ip := st.ip + 1, stack := rest } none from
        by simp only [step, hi, hs]] at hn
      injection hn with h1 h2
      rw [← h1]
      exact hrest
    | Number x =>
      rw [show step st = .next { st with ip := st.ip + 1, stack := rest } none from
        by simp only [step, hi, hs]] at hn
      injection hn with h1 h2
      rw [← h1]
      exact hrest
    | Identifier x =>
      rw [show step st = .next { st with ip := st.ip + 1, stack := rest } none from
        by simp only [step, hi, hs]] at hn
      injection hn with h1 h2
      rw [← h1]
      exact hrest
    | Tensor x =>
      rw [show step st = .next { st with ip := st.ip + 1, stack := rest } none from
        by simp only [step, hi, hs]] at hn
      injection hn with h1 h2
      rw [← h1]
      exact hrest

/-- Along a clean trace from a well-formed state, the run never
faults. -/
lemma runLoop_no_fault (f : Nat) (st : VMState) (outs console : List ValueType)
    (hWF : stateWF st = true) (hclean : traceClean f st = true) :
    ∀ cons, runLoop f st outs console ≠ .fault cons := by
  induction f generalizing st outs console with
  | zero => intro cons h; exact absurd h (by simp [runLoop])
  | succ f ih =>
    intro cons h
    rw [traceClean] at hclean
    rw [Bool.and_eq_true] at hclean
    obtain ⟨hm0, hrest⟩ := hclean
    have hm : mixedAddAt st = false := by
      cases hq : mixedAddAt st
      · rfl
      · rw [hq] at hm0; exact absurd hm0 (by simp)
    have hsafe := step_preserve st hWF hm
    rw [runLoop] at h
    cases hstep : step st with
    | next st2 p =>
      rw [hstep] at h hrest
      have hwf2 := hsafe.2.2 st2 p hstep
      cases p with
      | some v => exact ih st2 (outs ++ [v]) (console ++ [v]) hwf2 hrest cons h
      | none => exact ih st2 outs console hwf2 hrest cons h
    | ret => rw [hstep] at h; exact absurd h (by simp)
    | err m => rw [hstep] at h; exact absurd h (by simp)
    | fault => exact hsafe.1 hstep

/-- C3 (amended): in a well-formed program (one accepted by the static
height walk) whose execution stays clear of the mixed OpAdd
configuration, no opcode ever pops more values than the stack holds and
no push exceeds the 256-slot capacity (the run never faults), execution
reaches OpReturn only with the stack top back at zero, and every step
keeps the stack within capacity. -/
theorem c3_stack_discipline (f : Nat) (st : VMState)
    (outs console : List ValueType)
    (hWF : stateWF st = true) (hclean : traceClean f st = true) :
    (∀ cons, runLoop f st outs console ≠ .fault cons) ∧
    (step st = .ret → st.stack = []) ∧
    (∀ st2 p, step st = .next st2 p → st2.stack.length ≤ STACK_MAX) := by
  exact ⟨runLoop_no_fault f st outs console hWF hclean,
    step_ret_empty st hWF, step_next_cap st hWF⟩

/-- Witness for C3 on the program print 1 + 2; . -/
theorem c3_stack_discipline_witness :
    runLoop 8 cpVM [] [] ≠ .fault [] :=
  (c3_stack_discipline 8 cpVM [] [] (by decide) (by decide)).1 []
